import Mathlib

/-!
# MultiFaderDrone: the voice (`FaderPair`) and the voice pool (`FaderPairs`)

A shallow embedding of `Source/jr_FaderPairs.cpp` (class members as declared in
`Source/jr_FaderPairs.h`).

Conventions of the embedding

* `float` values are exact rationals (`ℚ`): rounding is not modelled, and a division
  by zero gives `0` as it does in `ℚ`.
* `size_t` values are naturals; where the source subtracts on `size_t` the result is
  reduced modulo `2 ^ 64`.
* The static members of `FaderPair` (the random source, the frequency ranges, the stereo
  width and the LFO rate) are one record, `Statics`, passed through every operation that
  reads or writes them.
* A member function is a function from the state before the call to the state after it.
  `std::vector::at` outside the range throws: `FaderPair.process` returns `none` there.
* The waveform of the oscillator primitive is a parameter, `wave`.
-/

/-! ## External primitives -/

namespace juce

/-- Modelled from the spec: the uniform random float source (`juce::Random`) is external
to the sources. `nextFloat` hands out the values of a fixed stream one after the other;
`draws` is the stream and `pos` the number of values handed out so far. -/
structure Random where
  draws : Nat → ℚ
  pos : Nat := 0

namespace Random

/-- The value handed out by the next `nextFloat()` call. -/
def peek (r : Random) : ℚ := r.draws r.pos

/-- The random source after one `nextFloat()` call. -/
def advance (r : Random) : Random := { r with pos := r.pos + 1 }

/-- One `nextFloat()` call: the value and the source after it. -/
def nextFloat (r : Random) : ℚ × Random := (r.peek, r.advance)

end Random

/-- Modelled from the spec: the smoothed-ramp primitive (`juce::SmoothedValue<float>`,
linear) is external to the sources. It holds a current value and a target; a new target
starts a ramp of `stepsToTarget` samples with a fixed step per sample, and the last
sample of a ramp lands exactly on the target. -/
structure SmoothedValue where
  currentValue : ℚ := 0
  target : ℚ := 0
  step : ℚ := 0
  countdown : Int := 0
  stepsToTarget : Int := 0

namespace SmoothedValue

/-- The call `getCurrentValue()`: no advance. -/
def getCurrentValue (s : SmoothedValue) : ℚ := s.currentValue

/-- The call `getTargetValue()`. -/
def getTargetValue (s : SmoothedValue) : ℚ := s.target

/-- The call `isSmoothing()`: a ramp is under way. -/
def isSmoothing (s : SmoothedValue) : Bool := decide (0 < s.countdown)

/-- The call `setCurrentAndTargetValue(v)`: an immediate jump. -/
def setCurrentAndTargetValue (s : SmoothedValue) (v : ℚ) : SmoothedValue :=
  { s with target := v, currentValue := v, countdown := 0 }

/-- The call `reset(sampleRate, rampLengthInSeconds)`: the ramp length in samples is
re-derived and the value jumps to the target. -/
def reset (s : SmoothedValue) (sampleRate rampLengthInSeconds : ℚ) : SmoothedValue :=
  setCurrentAndTargetValue { s with stepsToTarget := ⌊rampLengthInSeconds * sampleRate⌋ }
    s.target

/-- The call `setTargetValue(v)`: nothing when `v` is the target already, a jump when
the ramp has no length, the start of a ramp otherwise. -/
def setTargetValue (s : SmoothedValue) (v : ℚ) : SmoothedValue :=
  if v = s.target then s
  else if s.stepsToTarget ≤ 0 then s.setCurrentAndTargetValue v
  else { s with target := v, countdown := s.stepsToTarget,
                step := (v - s.currentValue) / (s.stepsToTarget : ℚ) }

/-- The state after the call `getNextValue()`: one sample further along the ramp. -/
def advance (s : SmoothedValue) : SmoothedValue :=
  if s.isSmoothing then
    if 0 < s.countdown - 1 then
      { s with countdown := s.countdown - 1, currentValue := s.currentValue + s.step }
    else
      { s with countdown := s.countdown - 1, currentValue := s.target }
  else s

/-- The call `getNextValue()`: the returned value and the state after it. -/
def getNextValue (s : SmoothedValue) : ℚ × SmoothedValue :=
  if s.isSmoothing then (s.advance.currentValue, s.advance) else (s.target, s)

end SmoothedValue

end juce

/-- Modelled from the spec: the oscillator primitive (`SineOsc` of `jr_Oscillators.h`) is
not among the sources. It holds a sample rate, a frequency and a phase in `[0,1)`; each
`process()` call moves the phase on by `frequency / sampleRate` and returns the waveform
at the new phase. -/
structure SineOsc where
  sampleRate : ℚ := 0
  frequency : ℚ := 0
  phase : ℚ := 0

namespace SineOsc

/-- The call `setSampleRate(sr)`. -/
def setSampleRate (o : SineOsc) (sr : ℚ) : SineOsc := { o with sampleRate := sr }

/-- The call `setFrequency(f)`. -/
def setFrequency (o : SineOsc) (f : ℚ) : SineOsc := { o with frequency := f }

/-- The oscillator after one `process()` call. -/
def advance (o : SineOsc) : SineOsc :=
  { o with phase := Int.fract (o.phase + o.frequency / o.sampleRate) }

/-- One `process()` call: the sample and the oscillator after it. -/
def process (wave : ℚ → ℚ) (o : SineOsc) : ℚ × SineOsc :=
  (wave o.advance.phase, o.advance)

end SineOsc

/-- Modelled from the spec: `jr::Utils::constrainFloat` is not among the sources. It clamps
a value to `[lo, hi]`, with the comparisons in the order of `FaderPairs::setAndConstrain`
of the header. -/
def constrainFloat (newValue lo hi : ℚ) : ℚ :=
  if newValue > hi then hi
  else if newValue < lo then lo
  else newValue

/-! ## Shared (static) state of `FaderPair` -/

/-- The static members of `FaderPair`. -/
structure Statics where
  random : juce.Random
  minLfoFreq : ℚ
  maxLfoFreq : ℚ
  minOscFreq : ℚ
  maxOscFreq : ℚ
  stereoWidth : ℚ
  lfoRate : ℚ

/-! ## The voice: `FaderPair` -/

/-- The members of a `FaderPair`. The default values are those of the member
initialisers; `pan` has no declaration among the sources, so what it holds in a newly
constructed voice is a parameter of `FaderPair.new`. -/
structure FaderPair where
  lfo : SineOsc := {}
  maxLevel : juce.SmoothedValue := {}
  avgLevel : juce.SmoothedValue := {}
  oscs : List SineOsc := []
  rampTime : ℚ := 0.1
  masterGain : juce.SmoothedValue := {}
  silenced : Bool := false
  waitingToRestart : Bool := false
  lfoBaseFreq : ℚ := 0
  lfoSpread : ℚ := 1
  pan : ℚ × ℚ
  out : ℚ × ℚ := (0, 0)

namespace FaderPair

/-- The constructor `FaderPair()`; `pan0` is what `pan` holds before any write. -/
def new (pan0 : ℚ × ℚ) : FaderPair := { pan := pan0 }

/-- The static `FaderPair::initFreqs`. -/
def initFreqs (st : Statics) (minOscFreq maxOscFreq minLfoFreq maxLfoFreq : ℚ) : Statics :=
  { st with minOscFreq := minOscFreq, maxOscFreq := maxOscFreq,
            minLfoFreq := minLfoFreq, maxLfoFreq := maxLfoFreq }

/-- The static `FaderPair::setStereoWidth`. -/
def setStereoWidth (st : Statics) (width : ℚ) : Statics := { st with stereoWidth := width }

/-- The static `FaderPair::setLfoRate`; the bounds of `constrainFloat` are its defaults. -/
def setLfoRate (st : Statics) (rate : ℚ) : Statics :=
  { st with lfoRate := constrainFloat rate 0 1 }

/-- The static `FaderPair::getRandomOscFrequency`: the frequency and the statics after
the draw. -/
def getRandomOscFrequency (st : Statics) : ℚ × Statics :=
  (st.random.peek * (st.maxOscFreq - st.minOscFreq) + st.minOscFreq,
   { st with random := st.random.advance })

/-- The member `FaderPair::getLfoFreqFromScale`; the bounds of `constrainFloat` are its
defaults. -/
def getLfoFreqFromScale (st : Statics) (v : FaderPair) (scale : ℚ) : ℚ :=
  st.minLfoFreq + ((st.maxLfoFreq + st.lfoRate * v.lfoSpread) - st.minLfoFreq)
    * constrainFloat scale 0 1

/-- The member `FaderPair::updateLfoFreq`. -/
def updateLfoFreq (st : Statics) (v : FaderPair) : FaderPair :=
  { v with lfo := v.lfo.setFrequency (getLfoFreqFromScale st v v.lfoBaseFreq) }

/-- The member `FaderPair::setMaxLevel`. -/
def setMaxLevel (v : FaderPair) (maxLevel : ℚ) : FaderPair :=
  { v with maxLevel := v.maxLevel.setTargetValue maxLevel,
           avgLevel := v.avgLevel.setTargetValue (maxLevel / 2) }

/-- The loop of `initOscs`: `k` oscillators are made and pushed to the back. -/
def initOscsLoop (sampleRate : ℚ) : Nat → Statics → List SineOsc → Statics × List SineOsc
  | 0, st, os => (st, os)
  | k + 1, st, os =>
    initOscsLoop sampleRate k (getRandomOscFrequency st).2
      (os ++ [(({} : SineOsc).setSampleRate sampleRate).setFrequency
                (getRandomOscFrequency st).1])

/-- The member `FaderPair::initOscs`. -/
def initOscs (st : Statics) (v : FaderPair) (sampleRate : ℚ) : Statics × FaderPair :=
  if v.oscs.length ≠ 2 then
    ((initOscsLoop sampleRate 2 st v.oscs).1,
     { v with oscs := (initOscsLoop sampleRate 2 st v.oscs).2 })
  else (st, v)

/-- The loop of `resetFrequencies`: every oscillator gets a newly drawn frequency. -/
def resetFrequenciesLoop : Statics → List SineOsc → Statics × List SineOsc
  | st, [] => (st, [])
  | st, o :: os =>
    ((resetFrequenciesLoop (getRandomOscFrequency st).2 os).1,
     o.setFrequency (getRandomOscFrequency st).1
       :: (resetFrequenciesLoop (getRandomOscFrequency st).2 os).2)

/-- The member `FaderPair::resetFrequencies`. -/
def resetFrequencies (st : Statics) (v : FaderPair) : Statics × FaderPair :=
  let r := resetFrequenciesLoop st v.oscs
  let st1 : Statics := { r.1 with random := r.1.random.advance }
  let v1 : FaderPair := { v with oscs := r.2, lfoBaseFreq := r.1.random.peek }
  (st1, { v1 with lfo := v1.lfo.setFrequency (getLfoFreqFromScale st1 v1 v1.lfoBaseFreq) })

/-- The member `FaderPair::resetOsc`. -/
def resetOsc (st : Statics) (v : FaderPair) (index : Int) : Statics × FaderPair :=
  if index < 0 ∨ index ≥ (v.oscs.length : Int) then (st, v)
  else
    ((getRandomOscFrequency st).2,
     { v with oscs := v.oscs.modify
                (fun o => o.setFrequency (getRandomOscFrequency st).1) index.toNat })

/-- The write `pan.at(index) = x`; the source passes the indices `0` and `1` only. -/
def setPan (pan : ℚ × ℚ) (index : Int) (x : ℚ) : ℚ × ℚ :=
  if index = 0 then (x, pan.2) else if index = 1 then (pan.1, x) else pan

/-- The member `FaderPair::resetPan`. -/
def resetPan (st : Statics) (v : FaderPair) (index : Int) : Statics × FaderPair :=
  if index < 0 ∨ index ≥ (v.oscs.length : Int) then (st, v)
  else
    ({ st with random := st.random.advance },
     { v with pan := setPan v.pan index (0.5 + (st.random.peek - 0.5) * st.stereoWidth) })

/-- The member `FaderPair::init`. -/
def init (st : Statics) (v : FaderPair) (sampleRate maxLevel : ℚ) (silenced : Bool) :
    Statics × FaderPair :=
  let v1 : FaderPair :=
    { v with
      silenced := silenced
      masterGain :=
        (((v.masterGain.reset sampleRate v.rampTime).setCurrentAndTargetValue 0).setTargetValue
          (if silenced then 0 else 1))
      avgLevel := (v.avgLevel.reset sampleRate v.rampTime).setTargetValue (maxLevel / 2)
      maxLevel := (v.maxLevel.reset sampleRate v.rampTime).setTargetValue maxLevel
      lfo := v.lfo.setSampleRate sampleRate
      lfoBaseFreq := st.random.peek }
  let st1 : Statics := { st with random := st.random.advance }
  let v2 : FaderPair :=
    { v1 with lfo := v1.lfo.setFrequency (getLfoFreqFromScale st1 v1 v1.lfoBaseFreq) }
  let p0 := resetPan st1 v2 0
  let p1 := resetPan p0.1 p0.2 1
  initOscs p1.1 p1.2 sampleRate

/-- The member `FaderPair::silence`. -/
def silence (v : FaderPair) : FaderPair :=
  let v1 : FaderPair :=
    if !v.silenced then
      { v with masterGain := v.masterGain.setTargetValue 0, silenced := true }
    else v
  { v1 with waitingToRestart := false }

/-- The member `FaderPair::start`. -/
def start (st : Statics) (v : FaderPair) : Statics × FaderPair :=
  if v.masterGain.getCurrentValue ≠ 0 ∧ v.silenced = true then
    (st, { v with waitingToRestart := true })
  else if v.masterGain.getCurrentValue = 0 then
    ((resetFrequencies st v).1,
     { (resetFrequencies st v).2 with
       masterGain := (resetFrequencies st v).2.masterGain.setTargetValue 1
       silenced := false })
  else (st, v)

/-- The member `FaderPair::processLevels`: the returned `delta` and the state after. -/
def processLevels (wave : ℚ → ℚ) (st : Statics) (v : FaderPair) :
    ℚ × Statics × FaderPair :=
  let v1 : FaderPair := { v with maxLevel := v.maxLevel.getNextValue.2 }
  let lfoVal := (v1.lfo.process wave).1
  let v2 : FaderPair := { v1 with lfo := (v1.lfo.process wave).2 }
  let r : Statics × FaderPair :=
    if lfoVal ≥ 1 then resetPan (resetOsc st v2 1).1 (resetOsc st v2 1).2 1
    else if lfoVal ≤ -1 then resetPan (resetOsc st v2 0).1 (resetOsc st v2 0).2 0
    else (st, v2)
  (lfoVal * r.2.avgLevel.getNextValue.1, r.1,
   { r.2 with avgLevel := r.2.avgLevel.getNextValue.2 })

/-- The first part of `FaderPair::process`: the deferred restart. -/
def processRestart (st : Statics) (v : FaderPair) : Statics × FaderPair :=
  if v.masterGain.getCurrentValue = 0 ∧ v.waitingToRestart = true then
    start st { v with waitingToRestart := false }
  else (st, v)

/-- The member `FaderPair::process`: the returned pair and the state after the call, or
`none` where `oscs.at` throws. -/
def process (wave : ℚ → ℚ) (st : Statics) (v : FaderPair) :
    Option ((ℚ × ℚ) × Statics × FaderPair) :=
  if v.oscs.length = 0 then some (v.out, st, v)
  else
    let r := processRestart st v
    let l := processLevels wave r.1 r.2
    let delta := l.1
    let v1 := l.2.2
    match v1.oscs with
    | a :: b :: rest =>
      let osc1RawOut := (a.process wave).1 * (v1.avgLevel.getCurrentValue + delta)
      let osc2RawOut := (b.process wave).1 * (v1.avgLevel.getCurrentValue - delta)
      let first := 0 + osc1RawOut * (1 - v1.pan.1) + osc2RawOut * (1 - v1.pan.2)
      let second := 0 + osc1RawOut * v1.pan.1 + osc2RawOut * v1.pan.2
      let mg := v1.masterGain.getNextValue.2
      let o : ℚ × ℚ := (first * mg.getCurrentValue, second * mg.getCurrentValue)
      some (o, l.2.1,
            { v1 with oscs := (a.process wave).2 :: (b.process wave).2 :: rest
                      masterGain := mg
                      out := o })
    | _ => none

end FaderPair

/-! ## The pool: `FaderPairs` -/

/-- The members of a `FaderPairs`. None of them has an initialiser except `gain`; what
the others hold in a newly constructed pool is a parameter of `FaderPairs.new`. -/
structure FaderPairs where
  pairs : List FaderPair := []
  sampleRate : ℚ
  numActivePairs : Nat
  maxNumPairs : Nat
  gainOffset : ℚ
  gain : juce.SmoothedValue := {}
  out : ℚ × ℚ := (0, 0)

namespace FaderPairs

/-- The constructor `FaderPairs()`: the vector is empty and `gain` is `0`; the members
without an initialiser hold the given values. -/
def new (sampleRate : ℚ) (numActivePairs maxNumPairs : Nat) (gainOffset : ℚ) : FaderPairs :=
  { sampleRate := sampleRate, numActivePairs := numActivePairs,
    maxNumPairs := maxNumPairs, gainOffset := gainOffset }

/-- The member `FaderPairs::setGainOffset`. The subtraction is on `size_t`. -/
def setGainOffset (p : FaderPairs) : FaderPairs :=
  let g : ℚ := (((p.numActivePairs + 2 ^ 64 - 1) % 2 ^ 64 : Nat) : ℚ) / 7
  let g1 : ℚ := if g > 1 then 1 else g
  { p with gainOffset := g1, gain := p.gain.setTargetValue (0.6 + 0.4 * g1) }

/-- The loop of `FaderPairs::init`, from index `i` for `k` more rounds: a new voice is
pushed to the back and the voice at index `i` is initialised. -/
def initLoop (pan0 : ℚ × ℚ) (sampleRate maxLevel : ℚ) (numPairs : Nat) :
    Nat → Nat → Statics → List FaderPair → Statics × List FaderPair
  | 0, _, st, ps => (st, ps)
  | k + 1, i, st, ps =>
    match (ps ++ [FaderPair.new pan0]).get? i with
    | some v =>
      initLoop pan0 sampleRate maxLevel numPairs k (i + 1)
        (FaderPair.init st v sampleRate maxLevel (decide (i ≥ numPairs))).1
        ((ps ++ [FaderPair.new pan0]).set i
          (FaderPair.init st v sampleRate maxLevel (decide (i ≥ numPairs))).2)
    | none => (st, ps ++ [FaderPair.new pan0])

/-- The member `FaderPairs::init`. The parameter `maxNumPairs` hides the member of the
same name, which is not written. The two LFO bounds are the default arguments of
`initFreqs` in the header, and `minOscFreq`, `maxOscFreq` default there to `120` and
`1200`. -/
def init (pan0 : ℚ × ℚ) (st : Statics) (p : FaderPairs) (numPairs : Nat) (sampleRate : ℚ)
    (maxNumPairs : Nat) (minOscFreq maxOscFreq : ℚ) : Statics × FaderPairs :=
  let p1 : FaderPairs :=
    { p with sampleRate := sampleRate, gain := p.gain.reset sampleRate 0.1 }
  let st1 := FaderPair.initFreqs st minOscFreq maxOscFreq 0.01 0.1
  let maxLevel : ℚ := 0.5 / (numPairs : ℚ)
  let r := initLoop pan0 sampleRate maxLevel numPairs maxNumPairs 0 st1 p1.pairs
  (r.1, setGainOffset { p1 with pairs := r.2, numActivePairs := numPairs })

/-- The loop of `FaderPairs::setNumPairs`, from index `i` on. -/
def setNumPairsLoop (numPairs : Nat) (maxLevel : ℚ) :
    Nat → Statics → List FaderPair → Statics × List FaderPair
  | _, st, [] => (st, [])
  | i, st, v :: vs =>
    let r : Statics × FaderPair :=
      if i < numPairs then FaderPair.start st v else (st, FaderPair.silence v)
    ((setNumPairsLoop numPairs maxLevel (i + 1) r.1 vs).1,
     r.2.setMaxLevel maxLevel :: (setNumPairsLoop numPairs maxLevel (i + 1) r.1 vs).2)

/-- The member `FaderPairs::setNumPairs`. -/
def setNumPairs (st : Statics) (p : FaderPairs) (numPairs : Nat) : Statics × FaderPairs :=
  let n : Nat :=
    if numPairs < 0 then 0
    else if numPairs > p.maxNumPairs then p.maxNumPairs
    else numPairs
  let maxLevel : ℚ := 1 / (n : ℚ)
  let r : Statics × List FaderPair :=
    if n < p.pairs.length then setNumPairsLoop n maxLevel 0 st p.pairs else (st, p.pairs)
  (r.1, setGainOffset { p with pairs := r.2, numActivePairs := n })

/-- The member `FaderPairs::setLfoRate`: the shared rate is set and every voice derives
its LFO frequency anew. -/
def setLfoRate (st : Statics) (p : FaderPairs) (rate : ℚ) : Statics × FaderPairs :=
  (FaderPair.setLfoRate st rate,
   { p with pairs := p.pairs.map (FaderPair.updateLfoFreq (FaderPair.setLfoRate st rate)) })

/-- The member `FaderPairs::setOscFreqRange`: each bound is clamped to `[80, 2000]` on
its own; the two LFO bounds are the default arguments of `initFreqs`. -/
def setOscFreqRange (st : Statics) (minHz maxHz : ℚ) : Statics :=
  FaderPair.initFreqs st (constrainFloat minHz 80 2000) (constrainFloat maxHz 80 2000)
    0.01 0.1

/-- The member `FaderPairs::setStereoWidth`. -/
def setStereoWidth (st : Statics) (width : ℚ) : Statics :=
  FaderPair.setStereoWidth st (constrainFloat width 0 1)

end FaderPairs

/-! ## Call sequences -/

/-- A call a client makes on a voice after `init`. -/
inductive VoiceCall where
  | start
  | silence
  | setMaxLevel (level : ℚ)
  | process

namespace FaderPair

/-- One call on a voice: the shared state and the voice after it (`none` where
`process` throws). -/
def call (wave : ℚ → ℚ) : VoiceCall → Statics × FaderPair → Option (Statics × FaderPair)
  | VoiceCall.start, s => some (start s.1 s.2)
  | VoiceCall.silence, s => some (s.1, silence s.2)
  | VoiceCall.setMaxLevel level, s => some (s.1, setMaxLevel s.2 level)
  | VoiceCall.process, s => (process wave s.1 s.2).map Prod.snd

/-- A sequence of calls on a voice, first call first. -/
def calls (wave : ℚ → ℚ) : List VoiceCall → Statics × FaderPair → Option (Statics × FaderPair)
  | [], s => some s
  | c :: cs, s => (call wave c s).bind (calls wave cs)

end FaderPair

/-! ## The fade state machine of a voice

The members `masterGain`, `silenced` and `waitingToRestart` are read and written by
`start`, `silence` and `process` only, and by nothing else in those functions than the
statements repeated below; `FaderPair.calls_fade` proves that. -/

/-- The three members of a voice that its fade state machine reads and writes. -/
structure FadeState where
  masterGain : juce.SmoothedValue
  silenced : Bool
  waitingToRestart : Bool

/-- The fade state of a voice. -/
def FaderPair.fade (v : FaderPair) : FadeState :=
  { masterGain := v.masterGain, silenced := v.silenced,
    waitingToRestart := v.waitingToRestart }

namespace FadeState

/-- What `FaderPair::start` does to the fade state. -/
def start (f : FadeState) : FadeState :=
  if f.masterGain.getCurrentValue ≠ 0 ∧ f.silenced = true then
    { f with waitingToRestart := true }
  else if f.masterGain.getCurrentValue = 0 then
    { f with masterGain := f.masterGain.setTargetValue 1, silenced := false }
  else f

/-- What `FaderPair::silence` does to the fade state. -/
def silence (f : FadeState) : FadeState :=
  let f1 : FadeState :=
    if !f.silenced then
      { f with masterGain := f.masterGain.setTargetValue 0, silenced := true }
    else f
  { f1 with waitingToRestart := false }

/-- What the deferred restart at the head of `FaderPair::process` does to the fade
state. -/
def processRestart (f : FadeState) : FadeState :=
  if f.masterGain.getCurrentValue = 0 ∧ f.waitingToRestart = true then
    start { f with waitingToRestart := false }
  else f

/-- What `FaderPair::process` does to the fade state of an initialised voice. -/
def process (f : FadeState) : FadeState :=
  { f.processRestart with masterGain := f.processRestart.masterGain.getNextValue.2 }

/-- What one call does to the fade state of an initialised voice. -/
def call : VoiceCall → FadeState → FadeState
  | VoiceCall.start, f => f.start
  | VoiceCall.silence, f => f.silence
  | VoiceCall.setMaxLevel _, f => f
  | VoiceCall.process, f => f.process

/-- What a sequence of calls does to the fade state of an initialised voice. -/
def calls : List VoiceCall → FadeState → FadeState
  | [], f => f
  | c :: cs, f => calls cs (call c f)

end FadeState

/-! ## Concrete inputs -/

/-- Shared state with the default ranges of the header, full stereo width, LFO rate `0`
and a random source that always returns `1/2`. -/
def sampleStatics : Statics :=
  { random := { draws := fun _ => 1 / 2 }
    minLfoFreq := 0.01, maxLfoFreq := 0.1
    minOscFreq := 120, maxOscFreq := 1200
    stereoWidth := 1, lfoRate := 0 }

/-- A waveform for concrete runs: the triangle wave of period `1` that is `-1` at phase
`0` and `1` at phase `1/2`. -/
def triangleWave (phase : ℚ) : ℚ := 1 - 4 * |phase - 1 / 2|

/-- A pool for concrete runs: constructed with `member` as the content of the member
`maxNumPairs` (which has no initialiser), then initialised with `numActive` active
voices out of `capacity` at 48000 samples per second and the default frequency range. -/
def samplePool (member numActive capacity : Nat) : Statics × FaderPairs :=
  FaderPairs.init (1 / 2, 1 / 2) sampleStatics (FaderPairs.new 0 0 member 0)
    numActive 48000 capacity 120 1200

/-- Shared state like `sampleStatics`, with a random source that returns `1/3`, `1/4`,
`1/5`, ... in turn (every value lies in `[0,1)`). -/
def varyingStatics : Statics :=
  { random := { draws := fun n => 1 / ((n : ℚ) + 3) }
    minLfoFreq := 0.01, maxLfoFreq := 0.1
    minOscFreq := 120, maxOscFreq := 1200
    stereoWidth := 1, lfoRate := 0 }

/-- A voice for concrete runs: two oscillators and an LFO whose next sample is at phase
`1/2`, the peak of `triangleWave`. -/
def peakVoice : FaderPair :=
  { FaderPair.new (1 / 4, 3 / 4) with
    oscs := [{}, {}]
    lfo := { sampleRate := 4, frequency := 2, phase := 0 } }

/-! ## States of the ramp primitive -/

/-- A ramp as its member functions leave it: at rest the value is the target, and under
way the remaining steps lead exactly to the target. -/
def juce.SmoothedValue.WellFormed (s : juce.SmoothedValue) : Prop :=
  (s.countdown ≤ 0 → s.currentValue = s.target)
    ∧ (0 < s.countdown → s.target = s.currentValue + (s.countdown : ℚ) * s.step)

/-! ## Facts about the ramp primitive -/

theorem juce.SmoothedValue.setTargetValue_target (s : juce.SmoothedValue) (v : ℚ) :
    (s.setTargetValue v).target = v := by
  unfold juce.SmoothedValue.setTargetValue
  split_ifs with h1 h2
  · exact h1.symm
  · rfl
  · rfl

theorem juce.SmoothedValue.advance_target (s : juce.SmoothedValue) :
    s.advance.target = s.target := by
  unfold juce.SmoothedValue.advance
  split_ifs <;> rfl

theorem juce.SmoothedValue.getNextValue_target (s : juce.SmoothedValue) :
    s.getNextValue.2.target = s.target := by
  unfold juce.SmoothedValue.getNextValue
  split_ifs
  · exact s.advance_target
  · rfl

/-! ## The gain compensation curve: `FaderPairs::setGainOffset` -/

/-- On `size_t`, `n - 1` is the integer difference when `1 ≤ n`. -/
theorem sizeSub_one_of_pos (n : Nat) (h1 : 1 ≤ n) (h2 : n < 2 ^ 64) :
    (n + 2 ^ 64 - 1) % 2 ^ 64 = n - 1 := by
  have e : n + 2 ^ 64 - 1 = (n - 1) + 2 ^ 64 := by omega
  rw [e, Nat.add_mod_right, Nat.mod_eq_of_lt (by omega)]

/-- The gain target that `setGainOffset` installs, for `1 ≤ numActivePairs`. -/
theorem FaderPairs.setGainOffset_target_of_pos (p : FaderPairs)
    (h1 : 1 ≤ p.numActivePairs) (h2 : p.numActivePairs < 2 ^ 64) :
    (p.setGainOffset).gain.target
      = 0.6 + 0.4 * min 1 ((((p.numActivePairs - 1 : Nat) : ℚ)) / 7) := by
  unfold FaderPairs.setGainOffset
  simp only [juce.SmoothedValue.setTargetValue_target]
  rw [sizeSub_one_of_pos _ h1 h2]
  congr 2
  split_ifs with h
  · exact (min_eq_left (le_of_lt h)).symm
  · exact (min_eq_right (not_lt.mp h)).symm

/-- Claim C5. For every `numActivePairs ≥ 14` the output gain target that `setGainOffset`
installs is exactly `1`. -/
theorem C5_setGainOffset_capped (p : FaderPairs)
    (h14 : 14 ≤ p.numActivePairs) (hsz : p.numActivePairs < 2 ^ 64) :
    (p.setGainOffset).gain.target = 1 := by
  rw [FaderPairs.setGainOffset_target_of_pos p (by omega) hsz]
  have h : (1 : ℚ) ≤ ((p.numActivePairs - 1 : Nat) : ℚ) / 7 := by
    rw [le_div_iff₀ (by norm_num)]
    have : (7 : ℕ) ≤ p.numActivePairs - 1 := by omega
    exact_mod_cast this
  rw [min_eq_left h]; norm_num

theorem C5_setGainOffset_capped_witness :
    ((FaderPairs.new 48000 14 21 0).setGainOffset).gain.target = 1
    ∧ ((FaderPairs.new 48000 21 21 0).setGainOffset).gain.target = 1 :=
  ⟨C5_setGainOffset_capped (FaderPairs.new 48000 14 21 0) (by simp [FaderPairs.new])
      (by simp [FaderPairs.new]),
   C5_setGainOffset_capped (FaderPairs.new 48000 21 21 0) (by simp [FaderPairs.new])
      (by simp [FaderPairs.new])⟩

/-- Claim C6. The output gain target that `setGainOffset` installs is monotonically
non-decreasing in `numActivePairs`, from `2` on. -/
theorem C6_setGainOffset_mono (p q : FaderPairs)
    (h2 : 2 ≤ p.numActivePairs) (hpq : p.numActivePairs ≤ q.numActivePairs)
    (hsz : q.numActivePairs < 2 ^ 64) :
    (p.setGainOffset).gain.target ≤ (q.setGainOffset).gain.target := by
  rw [FaderPairs.setGainOffset_target_of_pos p (by omega) (by omega),
    FaderPairs.setGainOffset_target_of_pos q (by omega) hsz]
  have h : ((p.numActivePairs - 1 : Nat) : ℚ) / 7 ≤ ((q.numActivePairs - 1 : Nat) : ℚ) / 7 := by
    apply div_le_div_of_nonneg_right _ (by norm_num)
    have : p.numActivePairs - 1 ≤ q.numActivePairs - 1 := by omega
    exact_mod_cast this
  have := min_le_min (le_refl (1 : ℚ)) h
  linarith

theorem C6_setGainOffset_mono_witness :
    ((FaderPairs.new 48000 2 21 0).setGainOffset).gain.target
      ≤ ((FaderPairs.new 48000 9 21 0).setGainOffset).gain.target :=
  C6_setGainOffset_mono (FaderPairs.new 48000 2 21 0) (FaderPairs.new 48000 9 21 0)
    (by simp [FaderPairs.new]) (by simp [FaderPairs.new]) (by simp [FaderPairs.new])

/-! ## The voice: what each member function leaves alone -/

theorem FaderPair.resetFrequenciesLoop_length (st : Statics) (os : List SineOsc) :
    (FaderPair.resetFrequenciesLoop st os).2.length = os.length := by
  induction os generalizing st with
  | nil => rfl
  | cons o os ih => simp [FaderPair.resetFrequenciesLoop, ih]

theorem FaderPair.resetFrequencies_fade (st : Statics) (v : FaderPair) :
    (FaderPair.resetFrequencies st v).2.fade = v.fade := rfl

theorem FaderPair.resetFrequencies_length (st : Statics) (v : FaderPair) :
    (FaderPair.resetFrequencies st v).2.oscs.length = v.oscs.length := by
  simp [FaderPair.resetFrequencies, FaderPair.resetFrequenciesLoop_length]

theorem FaderPair.resetOsc_fade (st : Statics) (v : FaderPair) (i : Int) :
    (FaderPair.resetOsc st v i).2.fade = v.fade := by
  unfold FaderPair.resetOsc
  split_ifs <;> rfl

theorem FaderPair.resetOsc_length (st : Statics) (v : FaderPair) (i : Int) :
    (FaderPair.resetOsc st v i).2.oscs.length = v.oscs.length := by
  unfold FaderPair.resetOsc
  split_ifs
  · rfl
  · simp

theorem FaderPair.resetPan_fade (st : Statics) (v : FaderPair) (i : Int) :
    (FaderPair.resetPan st v i).2.fade = v.fade := by
  unfold FaderPair.resetPan
  split_ifs <;> rfl

theorem FaderPair.resetPan_oscs (st : Statics) (v : FaderPair) (i : Int) :
    (FaderPair.resetPan st v i).2.oscs = v.oscs := by
  unfold FaderPair.resetPan
  split_ifs <;> rfl

theorem FaderPair.processLevels_fade (wave : ℚ → ℚ) (st : Statics) (v : FaderPair) :
    (FaderPair.processLevels wave st v).2.2.fade = v.fade := by
  unfold FaderPair.processLevels
  simp only []
  split_ifs
  · show (FaderPair.resetPan _ _ 1).2.fade = v.fade
    rw [FaderPair.resetPan_fade, FaderPair.resetOsc_fade]; rfl
  · show (FaderPair.resetPan _ _ 0).2.fade = v.fade
    rw [FaderPair.resetPan_fade, FaderPair.resetOsc_fade]; rfl
  · rfl

theorem FaderPair.processLevels_length (wave : ℚ → ℚ) (st : Statics) (v : FaderPair) :
    (FaderPair.processLevels wave st v).2.2.oscs.length = v.oscs.length := by
  unfold FaderPair.processLevels
  simp only []
  split_ifs
  · show (FaderPair.resetPan _ _ 1).2.oscs.length = v.oscs.length
    rw [FaderPair.resetPan_oscs, FaderPair.resetOsc_length]
  · show (FaderPair.resetPan _ _ 0).2.oscs.length = v.oscs.length
    rw [FaderPair.resetPan_oscs, FaderPair.resetOsc_length]
  · rfl

theorem FaderPair.start_fade (st : Statics) (v : FaderPair) :
    (FaderPair.start st v).2.fade = v.fade.start := by
  unfold FaderPair.start FadeState.start
  simp only [FaderPair.fade]
  split_ifs <;> rfl

theorem FaderPair.start_length (st : Statics) (v : FaderPair) :
    (FaderPair.start st v).2.oscs.length = v.oscs.length := by
  unfold FaderPair.start
  split_ifs
  · rfl
  · exact FaderPair.resetFrequencies_length st v
  · rfl

theorem FaderPair.silence_fade (v : FaderPair) : v.silence.fade = v.fade.silence := by
  unfold FaderPair.silence FadeState.silence
  simp only [FaderPair.fade]
  split_ifs <;> rfl

theorem FaderPair.silence_oscs (v : FaderPair) : v.silence.oscs = v.oscs := by
  unfold FaderPair.silence
  simp only []
  split_ifs <;> rfl

theorem FaderPair.processRestart_fade (st : Statics) (v : FaderPair) :
    (FaderPair.processRestart st v).2.fade = v.fade.processRestart := by
  unfold FaderPair.processRestart FadeState.processRestart
  split_ifs with h1 h2 h2
  · exact FaderPair.start_fade st _
  · exact absurd h1 h2
  · exact absurd h2 h1
  · rfl

theorem FaderPair.processRestart_length (st : Statics) (v : FaderPair) :
    (FaderPair.processRestart st v).2.oscs.length = v.oscs.length := by
  unfold FaderPair.processRestart
  split_ifs
  · exact FaderPair.start_length st _
  · rfl

/-- On a voice with its two oscillators, `process` returns, and its effect on the fade
state is `FadeState.process`. -/
theorem FaderPair.process_fade (wave : ℚ → ℚ) (st : Statics) (v : FaderPair)
    (h : 2 ≤ v.oscs.length) :
    ∃ r, FaderPair.process wave st v = some r ∧ r.2.2.fade = v.fade.process
      ∧ r.2.2.oscs.length = v.oscs.length := by
  have hl := FaderPair.processLevels_length wave (FaderPair.processRestart st v).1
    (FaderPair.processRestart st v).2
  have hf := FaderPair.processLevels_fade wave (FaderPair.processRestart st v).1
    (FaderPair.processRestart st v).2
  rw [FaderPair.processRestart_length] at hl
  rw [FaderPair.processRestart_fade] at hf
  have h0 : ¬ v.oscs.length = 0 := by omega
  unfold FaderPair.process
  rw [if_neg h0]
  simp only []
  split
  · rename_i a b rest heq
    refine ⟨_, rfl, ?_, ?_⟩
    · simp only [FaderPair.fade, FadeState.process] at hf ⊢
      rw [← hf]
    · simp only [List.length_cons]
      rw [← hl, heq]
      simp
  · rename_i hne
    exfalso
    rcases hos : (FaderPair.processLevels wave (FaderPair.processRestart st v).1
      (FaderPair.processRestart st v).2).2.2.oscs with _ | ⟨a, _ | ⟨b, rest⟩⟩
    · rw [hos] at hl; simp at hl; omega
    · rw [hos] at hl; simp at hl; omega
    · exact hne a b rest hos

/-- On a voice with its two oscillators every call returns; its effect on the fade state
is `FadeState.call`, and the number of oscillators stays. -/
theorem FaderPair.call_fade (wave : ℚ → ℚ) (c : VoiceCall) (s : Statics × FaderPair)
    (h : 2 ≤ s.2.oscs.length) :
    ∃ s1, FaderPair.call wave c s = some s1 ∧ s1.2.fade = FadeState.call c s.2.fade
      ∧ s1.2.oscs.length = s.2.oscs.length := by
  cases c with
  | start => exact ⟨_, rfl, FaderPair.start_fade _ _, FaderPair.start_length _ _⟩
  | silence =>
    exact ⟨_, rfl, FaderPair.silence_fade _, congrArg List.length (FaderPair.silence_oscs _)⟩
  | setMaxLevel level => exact ⟨_, rfl, rfl, rfl⟩
  | process =>
    obtain ⟨r, hr, hf, hl⟩ := FaderPair.process_fade wave s.1 s.2 h
    exact ⟨r.2, by simp [FaderPair.call, hr], hf, hl⟩

/-- On a voice with its two oscillators every sequence of calls returns; its effect on
the fade state is `FadeState.calls`, and the number of oscillators stays. -/
theorem FaderPair.calls_fade (wave : ℚ → ℚ) (cs : List VoiceCall) (s : Statics × FaderPair)
    (h : 2 ≤ s.2.oscs.length) :
    ∃ s1, FaderPair.calls wave cs s = some s1 ∧ s1.2.fade = FadeState.calls cs s.2.fade
      ∧ s1.2.oscs.length = s.2.oscs.length := by
  induction cs generalizing s with
  | nil => exact ⟨s, rfl, rfl, rfl⟩
  | cons c cs ih =>
    obtain ⟨s1, h1, hf1, hl1⟩ := FaderPair.call_fade wave c s h
    obtain ⟨s2, h2, hf2, hl2⟩ := ih s1 (by omega)
    refine ⟨s2, ?_, ?_, by omega⟩
    · simp [FaderPair.calls, h1, h2]
    · rw [hf2, hf1]; rfl

/-! ## The voice after `init` -/

theorem FaderPair.initOscs_fade (st : Statics) (v : FaderPair) (sr : ℚ) :
    (FaderPair.initOscs st v sr).2.fade = v.fade := by
  unfold FaderPair.initOscs
  split_ifs <;> rfl

theorem FaderPair.initOscsLoop_length (sr : ℚ) (k : Nat) (st : Statics) (os : List SineOsc) :
    (FaderPair.initOscsLoop sr k st os).2.length = os.length + k := by
  induction k generalizing st os with
  | zero => rfl
  | succ k ih => simp [FaderPair.initOscsLoop, ih]; omega

theorem FaderPair.initOscs_length (st : Statics) (v : FaderPair) (sr : ℚ) :
    2 ≤ (FaderPair.initOscs st v sr).2.oscs.length := by
  unfold FaderPair.initOscs
  split_ifs with h
  · simp [FaderPair.initOscsLoop_length]
  · simp only [ne_eq, not_not] at h
    show 2 ≤ v.oscs.length
    omega

/-- After `init` a voice has at least two oscillators (exactly two when it had none). -/
theorem FaderPair.init_length (st : Statics) (v : FaderPair) (sr lvl : ℚ) (sil : Bool) :
    2 ≤ (FaderPair.init st v sr lvl sil).2.oscs.length := by
  unfold FaderPair.init
  exact FaderPair.initOscs_length _ _ _

/-- The fade state of a voice after `init`. -/
theorem FaderPair.init_fade (st : Statics) (v : FaderPair) (sr lvl : ℚ) (sil : Bool) :
    (FaderPair.init st v sr lvl sil).2.fade =
      { masterGain :=
          ((v.masterGain.reset sr v.rampTime).setCurrentAndTargetValue 0).setTargetValue
            (if sil then 0 else 1)
        silenced := sil
        waitingToRestart := v.waitingToRestart } := by
  unfold FaderPair.init
  simp only []
  rw [FaderPair.initOscs_fade, FaderPair.resetPan_fade, FaderPair.resetPan_fade]
  rfl

/-! ## The fade state machine: invariants -/

theorem FaderPair.calls_append (wave : ℚ → ℚ) (cs ds : List VoiceCall)
    (s : Statics × FaderPair) :
    FaderPair.calls wave (cs ++ ds) s
      = (FaderPair.calls wave cs s).bind (FaderPair.calls wave ds) := by
  induction cs generalizing s with
  | nil => rfl
  | cons c cs ih =>
    simp only [List.cons_append, FaderPair.calls]
    cases FaderPair.call wave c s with
    | none => rfl
    | some s1 => simp [ih]

theorem FadeState.fade_calls_append (cs ds : List VoiceCall) (f : FadeState) :
    FadeState.calls (cs ++ ds) f = FadeState.calls ds (FadeState.calls cs f) := by
  induction cs generalizing f with
  | nil => rfl
  | cons c cs ih => exact ih (FadeState.call c f)

/-- Every call keeps: the gain target is `0` or `1`, and it is `0` exactly when the voice
is silenced. -/
theorem FadeState.call_target (c : VoiceCall) (f : FadeState)
    (h : (f.masterGain.target = 0 ∨ f.masterGain.target = 1)
      ∧ (f.silenced = true ↔ f.masterGain.target = 0)) :
    ((FadeState.call c f).masterGain.target = 0 ∨ (FadeState.call c f).masterGain.target = 1)
      ∧ ((FadeState.call c f).silenced = true ↔ (FadeState.call c f).masterGain.target = 0) := by
  have hstart : ∀ g : FadeState,
      ((g.masterGain.target = 0 ∨ g.masterGain.target = 1)
        ∧ (g.silenced = true ↔ g.masterGain.target = 0)) →
      ((g.start.masterGain.target = 0 ∨ g.start.masterGain.target = 1)
        ∧ (g.start.silenced = true ↔ g.start.masterGain.target = 0)) := by
    intro g hg
    unfold FadeState.start
    split_ifs
    · exact hg
    · simp [juce.SmoothedValue.setTargetValue_target]
    · exact hg
  cases c with
  | start => exact hstart f h
  | silence =>
    simp only [FadeState.call, FadeState.silence]
    split_ifs
    · simp [juce.SmoothedValue.setTargetValue_target]
    · exact h
  | setMaxLevel level => exact h
  | process =>
    simp only [FadeState.call, FadeState.process, juce.SmoothedValue.getNextValue_target]
    unfold FadeState.processRestart
    split_ifs
    · exact hstart _ h
    · exact h

theorem FadeState.calls_target (cs : List VoiceCall) (f : FadeState)
    (h : (f.masterGain.target = 0 ∨ f.masterGain.target = 1)
      ∧ (f.silenced = true ↔ f.masterGain.target = 0)) :
    ((FadeState.calls cs f).masterGain.target = 0 ∨ (FadeState.calls cs f).masterGain.target = 1)
      ∧ ((FadeState.calls cs f).silenced = true
          ↔ (FadeState.calls cs f).masterGain.target = 0) := by
  induction cs generalizing f with
  | nil => exact h
  | cons c cs ih => exact ih _ (FadeState.call_target c f h)

/-- Right after `init`, from any voice: the gain target is `0` or `1`, and it is `0`
exactly when the voice is silenced. -/
theorem FaderPair.init_target (st : Statics) (v : FaderPair) (sr lvl : ℚ) (sil : Bool) :
    ((FaderPair.init st v sr lvl sil).2.fade.masterGain.target = 0
        ∨ (FaderPair.init st v sr lvl sil).2.fade.masterGain.target = 1)
      ∧ ((FaderPair.init st v sr lvl sil).2.fade.silenced = true
          ↔ (FaderPair.init st v sr lvl sil).2.fade.masterGain.target = 0) := by
  rw [FaderPair.init_fade]
  cases sil <;> simp [juce.SmoothedValue.setTargetValue_target]

/-- Claim C8. Every sequence of `start()`, `silence()`, `setMaxLevel()` and `process()`
calls on a voice after `init` returns, and in the state it reaches the `masterGain`
target is `0` or `1`, `silenced` is true exactly when that target is `0`, and so the
voice is not silenced exactly when the target is `1`. -/
theorem C8_silenced_iff_target_zero (wave : ℚ → ℚ) (st : Statics) (v : FaderPair)
    (sampleRate maxLevel : ℚ) (silenced : Bool) (cs : List VoiceCall) :
    ∃ s, FaderPair.calls wave cs (FaderPair.init st v sampleRate maxLevel silenced) = some s
      ∧ (s.2.masterGain.target = 0 ∨ s.2.masterGain.target = 1)
      ∧ (s.2.silenced = true ↔ s.2.masterGain.target = 0)
      ∧ (s.2.silenced = false ↔ s.2.masterGain.target = 1) := by
  obtain ⟨s, hs, hf, _⟩ := FaderPair.calls_fade wave cs
    (FaderPair.init st v sampleRate maxLevel silenced) (FaderPair.init_length _ _ _ _ _)
  have h := FadeState.calls_target cs _ (FaderPair.init_target st v sampleRate maxLevel silenced)
  rw [← hf] at h
  simp only [FaderPair.fade] at h
  refine ⟨s, hs, h.1, h.2, ?_⟩
  constructor
  · intro hns
    rcases h.1 with h0 | h1
    · have := h.2.2 h0; rw [hns] at this; exact Bool.noConfusion this
    · exact h1
  · intro h1
    cases hsil : s.2.silenced with
    | false => rfl
    | true =>
      have h0 := h.2.1 hsil
      rw [h1] at h0
      exact absurd h0 one_ne_zero

/-! ## The deferred restart -/

/-- A `process()` call that begins with a non-zero gain on a silenced voice that waits
to restart leaves the three facts as they are. -/
theorem FadeState.process_waiting_of_ne (f : FadeState) (hs : f.silenced = true)
    (ht : f.masterGain.target = 0) (hw : f.waitingToRestart = true)
    (hg : f.masterGain.getCurrentValue ≠ 0) :
    f.process.silenced = true ∧ f.process.masterGain.target = 0
      ∧ f.process.waitingToRestart = true := by
  have hr : f.processRestart = f := by
    unfold FadeState.processRestart
    rw [if_neg (fun h => hg h.1)]
  simp only [FadeState.process, hr, juce.SmoothedValue.getNextValue_target]
  exact ⟨hs, ht, hw⟩

/-- A `process()` call that begins with the gain at `0` on a voice that waits to restart
restarts it. -/
theorem FadeState.process_waiting_of_eq (f : FadeState) (hw : f.waitingToRestart = true)
    (hg : f.masterGain.getCurrentValue = 0) :
    f.process.waitingToRestart = false ∧ f.process.silenced = false
      ∧ f.process.masterGain.target = 1 := by
  have hr : f.processRestart
      = { f with masterGain := f.masterGain.setTargetValue 1, silenced := false,
                 waitingToRestart := false } := by
    unfold FadeState.processRestart
    rw [if_pos ⟨hg, hw⟩]
    unfold FadeState.start
    rw [if_neg (fun h => h.1 hg), if_pos hg]
  simp only [FadeState.process, hr, juce.SmoothedValue.getNextValue_target,
    juce.SmoothedValue.setTargetValue_target]
  exact ⟨trivial, trivial, trivial⟩

/-- While every `process()` call begins with a non-zero gain, a silenced voice that waits
to restart stays silenced, waiting and with gain target `0`. -/
theorem FadeState.processes_waiting (f : FadeState) (hs : f.silenced = true)
    (ht : f.masterGain.target = 0) (hw : f.waitingToRestart = true) (k : Nat)
    (hfade : ∀ j, j < k →
      (FadeState.calls (List.replicate j VoiceCall.process) f).masterGain.getCurrentValue ≠ 0) :
    (FadeState.calls (List.replicate k VoiceCall.process) f).silenced = true
      ∧ (FadeState.calls (List.replicate k VoiceCall.process) f).masterGain.target = 0
      ∧ (FadeState.calls (List.replicate k VoiceCall.process) f).waitingToRestart = true := by
  induction k with
  | zero => exact ⟨hs, ht, hw⟩
  | succ k ih =>
    have ihk := ih (fun j hj => hfade j (Nat.lt_succ_of_lt hj))
    have e : FadeState.calls (List.replicate (k + 1) VoiceCall.process) f
        = (FadeState.calls (List.replicate k VoiceCall.process) f).process := by
      rw [List.replicate_succ', FadeState.fade_calls_append]; rfl
    rw [e]
    exact FadeState.process_waiting_of_ne _ ihk.1 ihk.2.1 ihk.2.2 (hfade k (Nat.lt_succ_self k))

/-- Claim C10. Take a voice state reached from `init` that is silenced with a non-zero
gain, and call `start()`. As long as each following `process()` call begins with a
non-zero gain, the calls return and leave the gain target at `0`, `silenced` true and the
restart pending; and a `process()` call that then begins with the gain at exactly `0`
clears `waitingToRestart`, clears `silenced` and sets the gain target to `1`. -/
theorem C10_restart_waits_for_zero (wave : ℚ → ℚ) (st : Statics) (v : FaderPair)
    (sampleRate maxLevel : ℚ) (silenced : Bool) (cs : List VoiceCall)
    (s : Statics × FaderPair)
    (hreach : FaderPair.calls wave cs (FaderPair.init st v sampleRate maxLevel silenced) = some s)
    (hsil : s.2.silenced = true) (hg : s.2.masterGain.getCurrentValue ≠ 0) (k : Nat)
    (hfade : ∀ j, j < k → ∀ t,
      FaderPair.calls wave (List.replicate j VoiceCall.process) (FaderPair.start s.1 s.2) = some t →
      t.2.masterGain.getCurrentValue ≠ 0) :
    ∃ t, FaderPair.calls wave (List.replicate k VoiceCall.process) (FaderPair.start s.1 s.2)
          = some t
      ∧ t.2.masterGain.target = 0 ∧ t.2.silenced = true ∧ t.2.waitingToRestart = true
      ∧ (t.2.masterGain.getCurrentValue = 0 →
          ∃ u, FaderPair.call wave VoiceCall.process t = some u
            ∧ u.2.waitingToRestart = false ∧ u.2.silenced = false
            ∧ u.2.masterGain.target = 1) := by
  -- the reached state is initialised and consistent
  obtain ⟨s1, hs1, hf1, hl1⟩ := FaderPair.calls_fade wave cs
    (FaderPair.init st v sampleRate maxLevel silenced) (FaderPair.init_length _ _ _ _ _)
  have hss : s1 = s := Option.some.inj (hs1.symm.trans hreach)
  subst hss
  have hlen : 2 ≤ s1.2.oscs.length := by
    rw [hl1]; exact FaderPair.init_length _ _ _ _ _
  have hinv := FadeState.calls_target cs _
    (FaderPair.init_target st v sampleRate maxLevel silenced)
  rw [← hf1] at hinv
  have htgt : s1.2.masterGain.target = 0 := hinv.2.1 hsil
  -- the state after `start()`
  have hstart : (FaderPair.start s1.1 s1.2).2.fade
      = { s1.2.fade with waitingToRestart := true } := by
    rw [FaderPair.start_fade]
    unfold FadeState.start
    rw [if_pos ⟨hg, hsil⟩]
  have hlen2 : 2 ≤ (FaderPair.start s1.1 s1.2).2.oscs.length := by
    rw [FaderPair.start_length]; exact hlen
  -- the `process()` calls, on the fade state
  have hfade2 : ∀ j, j < k →
      (FadeState.calls (List.replicate j VoiceCall.process)
        (FaderPair.start s1.1 s1.2).2.fade).masterGain.getCurrentValue ≠ 0 := by
    intro j hj
    obtain ⟨t, ht, htf, _⟩ := FaderPair.calls_fade wave (List.replicate j VoiceCall.process)
      (FaderPair.start s1.1 s1.2) hlen2
    rw [← htf]
    exact hfade j hj t ht
  have hk := FadeState.processes_waiting (FaderPair.start s1.1 s1.2).2.fade
    (by rw [hstart]; exact hsil) (by rw [hstart]; exact htgt) (by rw [hstart]) k hfade2
  obtain ⟨t, ht, htf, htl⟩ := FaderPair.calls_fade wave (List.replicate k VoiceCall.process)
    (FaderPair.start s1.1 s1.2) hlen2
  rw [← htf] at hk
  refine ⟨t, ht, hk.2.1, hk.1, hk.2.2, ?_⟩
  intro hzero
  obtain ⟨u, hu, huf, _⟩ := FaderPair.call_fade wave VoiceCall.process t (by omega)
  have hz := FadeState.process_waiting_of_eq t.2.fade hk.2.2 hzero
  refine ⟨u, hu, ?_, ?_, ?_⟩
  · have : u.2.fade.waitingToRestart = false := by rw [huf]; exact hz.1
    exact this
  · have : u.2.fade.silenced = false := by rw [huf]; exact hz.2.1
    exact this
  · have : u.2.fade.masterGain.target = 1 := by rw [huf]; exact hz.2.2
    exact this

/-- The fade state of a new voice after `init` at 20 samples per second, one `process()`
call and `silence()`: half way up, fading out over two samples. -/
theorem fade_after_process_silence :
    FadeState.calls [VoiceCall.process, VoiceCall.silence]
        (FaderPair.init sampleStatics (FaderPair.new (1 / 2, 1 / 2)) 20 1 false).2.fade
      = { masterGain := { currentValue := 1 / 2, target := 0, step := -(1 / 4),
                          countdown := 2, stepsToTarget := 2 }
          silenced := true, waitingToRestart := false } := by
  rw [FaderPair.init_fade]
  norm_num [FaderPair.new, FadeState.calls, FadeState.call, FadeState.process,
    FadeState.processRestart, FadeState.start, FadeState.silence,
    juce.SmoothedValue.reset, juce.SmoothedValue.setCurrentAndTargetValue,
    juce.SmoothedValue.setTargetValue, juce.SmoothedValue.getNextValue,
    juce.SmoothedValue.advance, juce.SmoothedValue.isSmoothing,
    juce.SmoothedValue.getCurrentValue]

theorem C10_restart_waits_for_zero_witness :
    ∃ s t u,
      FaderPair.calls triangleWave [VoiceCall.process, VoiceCall.silence]
          (FaderPair.init sampleStatics (FaderPair.new (1 / 2, 1 / 2)) 20 1 false) = some s
      ∧ s.2.silenced = true ∧ s.2.masterGain.getCurrentValue = 1 / 2
      ∧ FaderPair.calls triangleWave (List.replicate 2 VoiceCall.process)
          (FaderPair.start s.1 s.2) = some t
      ∧ t.2.masterGain.target = 0 ∧ t.2.silenced = true ∧ t.2.waitingToRestart = true
      ∧ t.2.masterGain.getCurrentValue = 0
      ∧ FaderPair.call triangleWave VoiceCall.process t = some u
      ∧ u.2.waitingToRestart = false ∧ u.2.silenced = false ∧ u.2.masterGain.target = 1 := by
  obtain ⟨s, hs, hsf, hsl⟩ := FaderPair.calls_fade triangleWave
    [VoiceCall.process, VoiceCall.silence]
    (FaderPair.init sampleStatics (FaderPair.new (1 / 2, 1 / 2)) 20 1 false)
    (FaderPair.init_length _ _ _ _ _)
  rw [fade_after_process_silence] at hsf
  have hsil : s.2.silenced = true := congrArg FadeState.silenced hsf
  have hmg : s.2.masterGain =
      { currentValue := 1 / 2, target := 0, step := -(1 / 4),
        countdown := 2, stepsToTarget := 2 } := congrArg FadeState.masterGain hsf
  have hg : s.2.masterGain.getCurrentValue = 1 / 2 := by rw [hmg]; rfl
  have hlen2 : 2 ≤ (FaderPair.start s.1 s.2).2.oscs.length := by
    rw [FaderPair.start_length, hsl]; exact FaderPair.init_length _ _ _ _ _
  have hstart : (FaderPair.start s.1 s.2).2.fade
      = { masterGain := { currentValue := 1 / 2, target := 0, step := -(1 / 4),
                          countdown := 2, stepsToTarget := 2 }
          silenced := true, waitingToRestart := true } := by
    rw [FaderPair.start_fade, hsf]
    norm_num [FadeState.start, juce.SmoothedValue.getCurrentValue]
  have hcur : ∀ j (t : Statics × FaderPair),
      FaderPair.calls triangleWave (List.replicate j VoiceCall.process)
        (FaderPair.start s.1 s.2) = some t →
      t.2.fade = FadeState.calls (List.replicate j VoiceCall.process)
        { masterGain := { currentValue := 1 / 2, target := 0, step := -(1 / 4),
                          countdown := 2, stepsToTarget := 2 }
          silenced := true, waitingToRestart := true } := by
    intro j t ht
    obtain ⟨t1, ht1, htf, _⟩ := FaderPair.calls_fade triangleWave
      (List.replicate j VoiceCall.process) (FaderPair.start s.1 s.2) hlen2
    have e : t1 = t := Option.some.inj (ht1.symm.trans ht)
    rw [← e, htf, hstart]
  have hfade : ∀ j, j < 2 → ∀ t,
      FaderPair.calls triangleWave (List.replicate j VoiceCall.process)
        (FaderPair.start s.1 s.2) = some t →
      t.2.masterGain.getCurrentValue ≠ 0 := by
    intro j hj t ht
    have h := congrArg (fun f => f.masterGain.getCurrentValue) (hcur j t ht)
    simp only [FaderPair.fade] at h
    rw [h]
    interval_cases j <;>
      norm_num [FadeState.calls, FadeState.call, FadeState.process,
        FadeState.processRestart, juce.SmoothedValue.getNextValue,
        juce.SmoothedValue.advance, juce.SmoothedValue.isSmoothing,
        juce.SmoothedValue.getCurrentValue]
  obtain ⟨t, ht, h1, h2, h3, h4⟩ := C10_restart_waits_for_zero triangleWave sampleStatics
    (FaderPair.new (1 / 2, 1 / 2)) 20 1 false [VoiceCall.process, VoiceCall.silence] s hs hsil
    (by rw [hg]; norm_num) 2 hfade
  have hzero : t.2.masterGain.getCurrentValue = 0 := by
    have h := congrArg (fun f => f.masterGain.getCurrentValue) (hcur 2 t ht)
    simp only [FaderPair.fade] at h
    rw [h]
    norm_num [FadeState.calls, FadeState.call, FadeState.process,
      FadeState.processRestart, juce.SmoothedValue.getNextValue,
      juce.SmoothedValue.advance, juce.SmoothedValue.isSmoothing,
      juce.SmoothedValue.getCurrentValue]
  obtain ⟨u, hu, hu1, hu2, hu3⟩ := h4 hzero
  exact ⟨s, t, u, hs, hsil, hg, ht, h1, h2, h3, hzero, hu, hu1, hu2, hu3⟩

/-! ## A fade of `N` samples -/

theorem juce.SmoothedValue.getNextValue_snd (s : juce.SmoothedValue) :
    s.getNextValue.2 = s.advance := by
  unfold juce.SmoothedValue.getNextValue juce.SmoothedValue.advance
  split_ifs <;> rfl

/-- The closed form of a ramp of `N` samples: before its end the value has moved by one
step per sample. -/
theorem juce.SmoothedValue.advance_iterate (r : juce.SmoothedValue) (N : ℕ)
    (hN : r.countdown = N) (j : ℕ) (hj : j < N) :
    juce.SmoothedValue.advance^[j] r
      = { r with countdown := (N : Int) - j, currentValue := r.currentValue + j * r.step } := by
  induction j with
  | zero =>
    cases r
    simp only [Function.iterate_zero, id_eq] at hN ⊢
    simp [hN]
  | succ j ih =>
    rw [Function.iterate_succ_apply', ih (by omega)]
    unfold juce.SmoothedValue.advance juce.SmoothedValue.isSmoothing
    simp only []
    have h1 : (0 : Int) < (N : Int) - j := by omega
    have h2 : (0 : Int) < (N : Int) - j - 1 := by omega
    rw [if_pos (by simpa using h1), if_pos h2]
    congr 1
    · push_cast; ring
    · push_cast; ring

/-- The last sample of a ramp lands on the target. -/
theorem juce.SmoothedValue.advance_iterate_end (r : juce.SmoothedValue) (N : ℕ)
    (hN : r.countdown = N) (h1 : 1 ≤ N) :
    juce.SmoothedValue.advance^[N] r
      = { r with countdown := 0, currentValue := r.target } := by
  obtain ⟨M, rfl⟩ : ∃ M, N = M + 1 := ⟨N - 1, by omega⟩
  rw [Function.iterate_succ_apply', juce.SmoothedValue.advance_iterate r (M + 1) hN M (by omega)]
  unfold juce.SmoothedValue.advance juce.SmoothedValue.isSmoothing
  simp only []
  have h1 : (0 : Int) < ((M + 1 : ℕ) : Int) - M := by push_cast; omega
  have h2 : ¬ (0 : Int) < ((M + 1 : ℕ) : Int) - M - 1 := by push_cast; omega
  rw [if_pos (by simp), if_neg h2]
  congr 1
  push_cast; ring

/-- A `process()` call that does not restart the voice only advances the gain ramp. -/
theorem FadeState.process_of_no_restart (f : FadeState)
    (h : f.waitingToRestart = false ∨ f.masterGain.currentValue ≠ 0) :
    f.process = { f with masterGain := f.masterGain.advance } := by
  have hr : f.processRestart = f := by
    unfold FadeState.processRestart
    rw [if_neg]
    rintro ⟨hg, hw⟩
    rcases h with h | h
    · rw [h] at hw; exact Bool.noConfusion hw
    · exact h hg
  simp only [FadeState.process, hr, juce.SmoothedValue.getNextValue_snd]

/-- During a ramp of `N` samples `j ≤ N` successive `process()` calls only advance the
gain ramp, when no restart is pending or the ramp does not pass through `0`. -/
theorem FadeState.processes_ramp (f : FadeState) (N : ℕ) (hN : f.masterGain.countdown = N)
    (j : ℕ) (hj : j ≤ N)
    (h : f.waitingToRestart = false
      ∨ ∀ i : ℕ, i < j → f.masterGain.currentValue + i * f.masterGain.step ≠ 0) :
    FadeState.calls (List.replicate j VoiceCall.process) f
      = { f with masterGain := juce.SmoothedValue.advance^[j] f.masterGain } := by
  induction j with
  | zero => rfl
  | succ j ih =>
    have ihj := ih (by omega) (h.imp id (fun h i hi => h i (by omega)))
    rw [List.replicate_succ', FadeState.fade_calls_append, ihj]
    show FadeState.process _ = _
    rw [FadeState.process_of_no_restart, Function.iterate_succ_apply']
    rcases h with h | h
    · exact Or.inl h
    · right
      rw [juce.SmoothedValue.advance_iterate f.masterGain N hN j (by omega)]
      exact h j (by omega)

/-- The run behind claim C7 for a fade of `N ≥ 1` samples. A voice that fades in from `0`
gets `N` `process()` calls, `silence()`, `start()`, `N` more `process()` calls and
`start()`: the state reached has `waitingToRestart` true and `silenced` false. -/
theorem FadeState.start_after_fade (N : ℕ) (hN : 1 ≤ N) (f : FadeState)
    (hf : f = { masterGain := { currentValue := 0, target := 1, step := 1 / (N : ℚ),
                                countdown := N, stepsToTarget := N }
                silenced := false, waitingToRestart := false }) :
    (FadeState.calls
        (List.replicate N VoiceCall.process ++ [VoiceCall.silence, VoiceCall.start]
          ++ List.replicate N VoiceCall.process ++ [VoiceCall.start]) f).waitingToRestart = true
    ∧ (FadeState.calls
        (List.replicate N VoiceCall.process ++ [VoiceCall.silence, VoiceCall.start]
          ++ List.replicate N VoiceCall.process ++ [VoiceCall.start]) f).silenced = false
    ∧ (FadeState.calls
        (List.replicate N VoiceCall.process ++ [VoiceCall.silence, VoiceCall.start]
          ++ List.replicate N VoiceCall.process ++ [VoiceCall.start]) f).masterGain.target = 1 := by
  have hNq : (N : ℚ) ≠ 0 := by exact_mod_cast (by omega : N ≠ 0)
  have hNi : ¬ ((N : Int) ≤ 0) := by omega
  subst hf
  -- the fade-in
  have hA : FadeState.calls (List.replicate N VoiceCall.process)
      { masterGain := { currentValue := 0, target := 1, step := 1 / (N : ℚ),
                        countdown := N, stepsToTarget := N }
        silenced := false, waitingToRestart := false }
      = { masterGain := { currentValue := 1, target := 1, step := 1 / (N : ℚ),
                          countdown := 0, stepsToTarget := N }
          silenced := false, waitingToRestart := false } := by
    rw [FadeState.processes_ramp _ N rfl N le_rfl (Or.inl rfl),
      juce.SmoothedValue.advance_iterate_end _ N rfl hN]
  -- `silence()` and the deferred `start()`
  have hB : FadeState.calls [VoiceCall.silence, VoiceCall.start]
      { masterGain := { currentValue := 1, target := 1, step := 1 / (N : ℚ),
                        countdown := 0, stepsToTarget := N }
        silenced := false, waitingToRestart := false }
      = { masterGain := { currentValue := 1, target := 0, step := (0 - 1) / (N : ℚ),
                          countdown := N, stepsToTarget := N }
          silenced := true, waitingToRestart := true } := by
    simp [FadeState.calls, FadeState.call, FadeState.silence, FadeState.start,
      juce.SmoothedValue.setTargetValue, juce.SmoothedValue.getCurrentValue, hNi]
  -- the fade-out does not pass through `0` before its last sample
  have hC : FadeState.calls (List.replicate N VoiceCall.process)
      { masterGain := { currentValue := 1, target := 0, step := (0 - 1) / (N : ℚ),
                        countdown := N, stepsToTarget := N }
        silenced := true, waitingToRestart := true }
      = { masterGain := { currentValue := 0, target := 0, step := (0 - 1) / (N : ℚ),
                          countdown := 0, stepsToTarget := N }
          silenced := true, waitingToRestart := true } := by
    rw [FadeState.processes_ramp _ N rfl N le_rfl,
      juce.SmoothedValue.advance_iterate_end _ N rfl hN]
    right
    intro i hi
    simp only []
    have hlt : (i : ℚ) < N := by exact_mod_cast hi
    have e : (1 : ℚ) + i * ((0 - 1) / N) = (N - i) / N := by field_simp; ring
    rw [e]
    exact div_ne_zero (by linarith) hNq
  -- the second `start()` finds the gain at `0`
  have hD : FadeState.calls [VoiceCall.start]
      { masterGain := { currentValue := 0, target := 0, step := (0 - 1) / (N : ℚ),
                        countdown := 0, stepsToTarget := N }
        silenced := true, waitingToRestart := true }
      = { masterGain := { currentValue := 0, target := 1, step := (1 - 0) / (N : ℚ),
                          countdown := N, stepsToTarget := N }
          silenced := false, waitingToRestart := true } := by
    simp [FadeState.calls, FadeState.call, FadeState.start,
      juce.SmoothedValue.setTargetValue, juce.SmoothedValue.getCurrentValue, hNi]
  rw [FadeState.fade_calls_append, FadeState.fade_calls_append, FadeState.fade_calls_append,
    hA, hB, hC, hD]
  exact ⟨rfl, rfl, rfl⟩

/-- Claim C7. A new voice is initialised at 48000 samples per second (a fade of 4800
samples) and gets 4800 `process()` calls (faded in), `silence()`, `start()` (deferred:
the gain is `1`), 4800 more `process()` calls (the fade reaches `0` at the end of the
last one) and `start()` again. That last `start()` finds the gain at `0` and restarts the
voice without clearing the flag: the state reached has `waitingToRestart` true and
`silenced` false. -/
theorem C7_waiting_while_not_silenced :
    ∃ s, FaderPair.calls triangleWave
          (List.replicate 4800 VoiceCall.process ++ [VoiceCall.silence, VoiceCall.start]
            ++ List.replicate 4800 VoiceCall.process ++ [VoiceCall.start])
          (FaderPair.init sampleStatics (FaderPair.new (1 / 2, 1 / 2)) 48000 1 false) = some s
      ∧ s.2.waitingToRestart = true ∧ s.2.silenced = false
      ∧ s.2.masterGain.target = 1 := by
  obtain ⟨s, hs, hsf, _⟩ := FaderPair.calls_fade triangleWave
    (List.replicate 4800 VoiceCall.process ++ [VoiceCall.silence, VoiceCall.start]
      ++ List.replicate 4800 VoiceCall.process ++ [VoiceCall.start])
    (FaderPair.init sampleStatics (FaderPair.new (1 / 2, 1 / 2)) 48000 1 false)
    (FaderPair.init_length _ _ _ _ _)
  have h := FadeState.start_after_fade 4800 (by norm_num)
    (FaderPair.init sampleStatics (FaderPair.new (1 / 2, 1 / 2)) 48000 1 false).2.fade
    (by
      rw [FaderPair.init_fade]
      norm_num [FaderPair.new, juce.SmoothedValue.reset,
        juce.SmoothedValue.setCurrentAndTargetValue, juce.SmoothedValue.setTargetValue])
  rw [← hsf] at h
  exact ⟨s, hs, h.1, h.2.1, h.2.2⟩

/-! ## `FaderPair::start` -/

/-- Claim C9. The three cases of `start()` on a voice with its two oscillators `a`, `b`.
Gain non-zero and silenced: only `waitingToRestart` is set. Gain `0`: both oscillator
frequencies are drawn anew from the shared range, the LFO base is the next draw and the
LFO frequency is derived from it, the gain target is `1` and `silenced` is cleared. Gain
non-zero and not silenced: nothing changes. -/
theorem C9_start_cases (st : Statics) (v : FaderPair) (a b : SineOsc)
    (hosc : v.oscs = [a, b]) :
    (v.masterGain.getCurrentValue ≠ 0 → v.silenced = true →
        FaderPair.start st v = (st, { v with waitingToRestart := true }))
    ∧ (v.masterGain.getCurrentValue = 0 →
        (FaderPair.start st v).2.oscs
            = [a.setFrequency (st.random.draws st.random.pos
                  * (st.maxOscFreq - st.minOscFreq) + st.minOscFreq),
               b.setFrequency (st.random.draws (st.random.pos + 1)
                  * (st.maxOscFreq - st.minOscFreq) + st.minOscFreq)]
        ∧ (FaderPair.start st v).2.lfoBaseFreq = st.random.draws (st.random.pos + 2)
        ∧ (FaderPair.start st v).2.lfo.frequency
            = st.minLfoFreq + ((st.maxLfoFreq + st.lfoRate * v.lfoSpread) - st.minLfoFreq)
                * constrainFloat (st.random.draws (st.random.pos + 2)) 0 1
        ∧ (FaderPair.start st v).1.random.pos = st.random.pos + 3
        ∧ (FaderPair.start st v).2.masterGain.target = 1
        ∧ (FaderPair.start st v).2.silenced = false)
    ∧ (v.masterGain.getCurrentValue ≠ 0 → v.silenced = false →
        FaderPair.start st v = (st, v)) := by
  refine ⟨?_, ?_, ?_⟩
  · intro hg hs
    unfold FaderPair.start
    rw [if_pos ⟨hg, hs⟩]
  · intro hg
    have e : FaderPair.start st v
        = ((FaderPair.resetFrequencies st v).1,
           { (FaderPair.resetFrequencies st v).2 with
             masterGain := (FaderPair.resetFrequencies st v).2.masterGain.setTargetValue 1
             silenced := false }) := by
      unfold FaderPair.start
      rw [if_neg (fun h => h.1 hg), if_pos hg]
    rw [e]
    simp only [juce.SmoothedValue.setTargetValue_target]
    simp [FaderPair.resetFrequencies, FaderPair.resetFrequenciesLoop, hosc,
      FaderPair.getRandomOscFrequency, FaderPair.getLfoFreqFromScale, SineOsc.setFrequency,
      juce.Random.peek, juce.Random.advance]
  · intro hg hs
    unfold FaderPair.start
    have hs2 : ¬ (v.masterGain.getCurrentValue ≠ 0 ∧ v.silenced = true) := by
      rintro ⟨_, h⟩; rw [hs] at h; exact Bool.noConfusion h
    rw [if_neg hs2, if_neg hg]

theorem C9_start_cases_witness :
    (FaderPair.start (FaderPair.init sampleStatics (FaderPair.new (1 / 2, 1 / 2)) 20 1 false).1
        (FaderPair.init sampleStatics (FaderPair.new (1 / 2, 1 / 2)) 20 1 false).2).2.masterGain.target
      = 1
    ∧ (FaderPair.start (FaderPair.init sampleStatics (FaderPair.new (1 / 2, 1 / 2)) 20 1 false).1
        (FaderPair.init sampleStatics (FaderPair.new (1 / 2, 1 / 2)) 20 1 false).2).2.silenced
      = false := by
  have hosc : ∃ a b,
      (FaderPair.init sampleStatics (FaderPair.new (1 / 2, 1 / 2)) 20 1 false).2.oscs = [a, b] :=
    ⟨_, _, rfl⟩
  obtain ⟨a, b, h⟩ := hosc
  have hf := congrArg (fun f => f.masterGain.getCurrentValue)
    (FaderPair.init_fade sampleStatics (FaderPair.new (1 / 2, 1 / 2)) 20 1 false)
  have hg : (FaderPair.init sampleStatics (FaderPair.new (1 / 2, 1 / 2)) 20 1
      false).2.masterGain.getCurrentValue = 0 := by
    simp only [FaderPair.fade] at hf
    rw [hf]
    norm_num [FaderPair.new, juce.SmoothedValue.reset,
      juce.SmoothedValue.setCurrentAndTargetValue, juce.SmoothedValue.setTargetValue,
      juce.SmoothedValue.getCurrentValue]
  exact ((C9_start_cases _ _ a b h).2.1 hg).2.2.2.2

/-! ## The pool after `FaderPairs::init` -/

theorem FaderPair.resetPan_levels (st : Statics) (v : FaderPair) (i : Int) :
    (FaderPair.resetPan st v i).2.maxLevel = v.maxLevel
      ∧ (FaderPair.resetPan st v i).2.avgLevel = v.avgLevel := by
  unfold FaderPair.resetPan
  split_ifs <;> exact ⟨rfl, rfl⟩

theorem FaderPair.initOscs_levels (st : Statics) (v : FaderPair) (sr : ℚ) :
    (FaderPair.initOscs st v sr).2.maxLevel = v.maxLevel
      ∧ (FaderPair.initOscs st v sr).2.avgLevel = v.avgLevel := by
  unfold FaderPair.initOscs
  split_ifs <;> exact ⟨rfl, rfl⟩

/-- The level targets of a voice after `init`. -/
theorem FaderPair.init_levels (st : Statics) (v : FaderPair) (sr lvl : ℚ) (sil : Bool) :
    (FaderPair.init st v sr lvl sil).2.maxLevel.target = lvl
      ∧ (FaderPair.init st v sr lvl sil).2.avgLevel.target = lvl / 2 := by
  unfold FaderPair.init
  simp only []
  rw [(FaderPair.initOscs_levels _ _ _).1, (FaderPair.initOscs_levels _ _ _).2,
    (FaderPair.resetPan_levels _ _ _).1, (FaderPair.resetPan_levels _ _ _).2,
    (FaderPair.resetPan_levels _ _ _).1, (FaderPair.resetPan_levels _ _ _).2]
  exact ⟨juce.SmoothedValue.setTargetValue_target _ _,
    juce.SmoothedValue.setTargetValue_target _ _⟩

/-- The loop of `FaderPairs::init`, entered at the end of the vector: it appends `k`
voices, leaves the voices before index `i` alone, and the voice at an index `j` from `i`
on is a new voice after `init` with `silenced = (j ≥ numPairs)`. -/
theorem FaderPairs.initLoop_spec (pan0 : ℚ × ℚ) (sr lvl : ℚ) (np k : Nat) :
    ∀ (i : Nat) (st : Statics) (ps : List FaderPair), ps.length = i →
      (FaderPairs.initLoop pan0 sr lvl np k i st ps).2.length = i + k
      ∧ ∀ j, j < i + k →
          (j < i → (FaderPairs.initLoop pan0 sr lvl np k i st ps).2.get? j = ps.get? j)
          ∧ (i ≤ j → ∃ st1, (FaderPairs.initLoop pan0 sr lvl np k i st ps).2.get? j
                = some (FaderPair.init st1 (FaderPair.new pan0) sr lvl (decide (j ≥ np))).2) := by
  induction k with
  | zero =>
    intro i st ps hlen
    refine ⟨by simpa [FaderPairs.initLoop] using hlen, ?_⟩
    intro j hj
    exact ⟨fun _ => rfl, fun h => absurd hj (by omega)⟩
  | succ k ih =>
    intro i st ps hlen
    have hget : (ps ++ [FaderPair.new pan0]).get? i = some (FaderPair.new pan0) := by
      simp [← hlen]
    have e : FaderPairs.initLoop pan0 sr lvl np (k + 1) i st ps
        = FaderPairs.initLoop pan0 sr lvl np k (i + 1)
            (FaderPair.init st (FaderPair.new pan0) sr lvl (decide (i ≥ np))).1
            ((ps ++ [FaderPair.new pan0]).set i
              (FaderPair.init st (FaderPair.new pan0) sr lvl (decide (i ≥ np))).2) := by
      rw [FaderPairs.initLoop, hget]
    have hlen2 : ((ps ++ [FaderPair.new pan0]).set i
        (FaderPair.init st (FaderPair.new pan0) sr lvl (decide (i ≥ np))).2).length = i + 1 := by
      simp [hlen]
    obtain ⟨h1, h2⟩ := ih (i + 1) _ _ hlen2
    rw [e]
    refine ⟨by rw [h1]; omega, ?_⟩
    intro j hj
    obtain ⟨h3, h4⟩ := h2 j (by omega)
    constructor
    · intro hji
      rw [h3 (by omega)]
      simp only [List.get?_eq_getElem?]
      rw [List.getElem?_set_ne (by omega), List.getElem?_append_left (by omega)]
    · intro hij
      rcases Nat.eq_or_lt_of_le hij with heq | hlt
      · subst heq
        rw [h3 (by omega)]
        refine ⟨st, ?_⟩
        simp only [List.get?_eq_getElem?]
        rw [List.getElem?_set_self (by simp [hlen])]
      · exact h4 (by omega)

theorem FaderPairs.init_pairs (pan0 : ℚ × ℚ) (st : Statics) (p : FaderPairs) (np : Nat)
    (sr : ℚ) (cap : Nat) (lo hi : ℚ) :
    (FaderPairs.init pan0 st p np sr cap lo hi).2.pairs
      = (FaderPairs.initLoop pan0 sr (0.5 / (np : ℚ)) np cap 0
          (FaderPair.initFreqs st lo hi 0.01 0.1) p.pairs).2 := rfl

/-- The member `maxNumPairs` is not written by `FaderPairs::init`. -/
theorem FaderPairs.init_maxNumPairs (pan0 : ℚ × ℚ) (st : Statics) (p : FaderPairs) (np : Nat)
    (sr : ℚ) (cap : Nat) (lo hi : ℚ) :
    (FaderPairs.init pan0 st p np sr cap lo hi).2.maxNumPairs = p.maxNumPairs := rfl

theorem FaderPairs.init_numActivePairs (pan0 : ℚ × ℚ) (st : Statics) (p : FaderPairs)
    (np : Nat) (sr : ℚ) (cap : Nat) (lo hi : ℚ) :
    (FaderPairs.init pan0 st p np sr cap lo hi).2.numActivePairs = np := rfl

/-- A new pool holds exactly `capacity` voices after `init`. -/
theorem FaderPairs.init_pairs_length (pan0 : ℚ × ℚ) (st : Statics) (sr0 : ℚ) (a m : Nat) (g : ℚ)
    (np : Nat) (sr : ℚ) (cap : Nat) (lo hi : ℚ) :
    (FaderPairs.init pan0 st (FaderPairs.new sr0 a m g) np sr cap lo hi).2.pairs.length
      = cap := by
  rw [FaderPairs.init_pairs]
  have h := (FaderPairs.initLoop_spec pan0 sr (0.5 / (np : ℚ)) np cap 0
    (FaderPair.initFreqs st lo hi 0.01 0.1) (FaderPairs.new sr0 a m g).pairs rfl).1
  rw [h]; omega

/-- The voice at index `j` of a new pool after `init` is a new voice after
`FaderPair::init` with level `0.5 / numPairs` and `silenced = (j ≥ numPairs)`. -/
theorem FaderPairs.init_get (pan0 : ℚ × ℚ) (st : Statics) (sr0 : ℚ) (a m : Nat) (g : ℚ)
    (np : Nat) (sr : ℚ) (cap : Nat) (lo hi : ℚ) (j : Nat) (hj : j < cap) :
    ∃ st1, (FaderPairs.init pan0 st (FaderPairs.new sr0 a m g) np sr cap lo hi).2.pairs.get? j
      = some (FaderPair.init st1 (FaderPair.new pan0) sr (0.5 / (np : ℚ))
          (decide (j ≥ np))).2 := by
  rw [FaderPairs.init_pairs]
  have h := (FaderPairs.initLoop_spec pan0 sr (0.5 / (np : ℚ)) np cap 0
    (FaderPair.initFreqs st lo hi 0.01 0.1) (FaderPairs.new sr0 a m g).pairs rfl).2 j
    (by omega)
  exact h.2 (Nat.zero_le j)

/-! ## `FaderPairs::setNumPairs` -/

theorem FaderPairs.setNumPairsLoop_length (n : Nat) (lvl : ℚ) (i : Nat) (st : Statics)
    (ps : List FaderPair) :
    (FaderPairs.setNumPairsLoop n lvl i st ps).2.length = ps.length := by
  induction ps generalizing i st with
  | nil => rfl
  | cons v vs ih => simp [FaderPairs.setNumPairsLoop, ih]

/-- The clamp of `setNumPairs` is against the member `maxNumPairs`. -/
theorem FaderPairs.setNumPairs_numActivePairs (st : Statics) (p : FaderPairs) (n : Nat) :
    (FaderPairs.setNumPairs st p n).2.numActivePairs
      = if n > p.maxNumPairs then p.maxNumPairs else n := by
  simp [FaderPairs.setNumPairs, FaderPairs.setGainOffset]

theorem FaderPairs.setNumPairs_length (st : Statics) (p : FaderPairs) (n : Nat) :
    (FaderPairs.setNumPairs st p n).2.pairs.length = p.pairs.length := by
  simp only [FaderPairs.setNumPairs, FaderPairs.setGainOffset]
  split_ifs <;> first | rfl | exact FaderPairs.setNumPairsLoop_length _ _ _ _ _

/-- When the clamped count is not below the number of voices, `setNumPairs` leaves every
voice as it is. -/
theorem FaderPairs.setNumPairs_pairs_of_ge (st : Statics) (p : FaderPairs) (n : Nat)
    (h1 : n ≤ p.maxNumPairs) (h2 : p.pairs.length ≤ n) :
    (FaderPairs.setNumPairs st p n).2.pairs = p.pairs := by
  have hn : (if n < 0 then 0 else if n > p.maxNumPairs then p.maxNumPairs else n) = n := by
    rw [if_neg (by omega), if_neg (by omega)]
  simp only [FaderPairs.setNumPairs, FaderPairs.setGainOffset, hn]
  rw [if_neg (by omega)]

/-- The voice at index `j` after the loop of `setNumPairs` entered at index `i`. -/
theorem FaderPairs.setNumPairsLoop_get (n : Nat) (lvl : ℚ) :
    ∀ (ps : List FaderPair) (i : Nat) (st : Statics) (j : Nat) (v : FaderPair),
      ps.get? j = some v →
      ∃ st1, (FaderPairs.setNumPairsLoop n lvl i st ps).2.get? j
        = some ((if i + j < n then (FaderPair.start st1 v).2 else v.silence).setMaxLevel lvl) := by
  intro ps
  induction ps with
  | nil => intro i st j v h; simp at h
  | cons w ws ih =>
    intro i st j v h
    cases j with
    | zero =>
      simp only [List.get?_cons_zero, Option.some.injEq] at h
      subst h
      refine ⟨st, ?_⟩
      simp only [FaderPairs.setNumPairsLoop, List.get?_cons_zero, Nat.add_zero]
      split_ifs <;> rfl
    | succ j =>
      simp only [List.get?_cons_succ] at h
      obtain ⟨st1, h1⟩ := ih (i + 1)
        (if i < n then FaderPair.start st w else (st, FaderPair.silence w)).1 j v h
      refine ⟨st1, ?_⟩
      simp only [FaderPairs.setNumPairsLoop, List.get?_cons_succ]
      rw [h1]
      have e : i + 1 + j = i + (j + 1) := by omega
      rw [e]

/-- What `setNumPairs(n)` does for `0 < n` below the number of voices (and not above the
member `maxNumPairs`), on a pool whose voices have gain target `0` or `1`, and `0`
exactly when silenced: every voice from index `n` on is silenced with gain target `0`,
every voice before is un-silenced with gain target `1` or has `waitingToRestart` set,
and every voice has the level targets `1/n` and `1/(2n)`. -/
theorem FaderPairs.setNumPairs_below_capacity (st : Statics) (p : FaderPairs) (n : Nat)
    (_hpos : 0 < n) (hmem : n ≤ p.maxNumPairs) (hlt : n < p.pairs.length)
    (hinv : ∀ v ∈ p.pairs, (v.masterGain.target = 0 ∨ v.masterGain.target = 1)
      ∧ (v.silenced = true ↔ v.masterGain.target = 0))
    (j : Nat) (hj : j < p.pairs.length) :
    ∃ v, (FaderPairs.setNumPairs st p n).2.pairs.get? j = some v
      ∧ v.maxLevel.target = 1 / (n : ℚ) ∧ v.avgLevel.target = 1 / (n : ℚ) / 2
      ∧ (n ≤ j → v.silenced = true ∧ v.masterGain.target = 0)
      ∧ (j < n → (v.silenced = false ∧ v.masterGain.target = 1)
                  ∨ v.waitingToRestart = true) := by
  have hn : (if n < 0 then 0 else if n > p.maxNumPairs then p.maxNumPairs else n) = n := by
    rw [if_neg (by omega), if_neg (by omega)]
  have hp : (FaderPairs.setNumPairs st p n).2.pairs
      = (FaderPairs.setNumPairsLoop n (1 / (n : ℚ)) 0 st p.pairs).2 := by
    simp only [FaderPairs.setNumPairs, FaderPairs.setGainOffset, hn]
    rw [if_pos hlt]
  obtain ⟨w, hw⟩ : ∃ w, p.pairs.get? j = some w := ⟨p.pairs.get ⟨j, hj⟩, List.get?_eq_get hj⟩
  have hwin : w ∈ p.pairs := List.get?_mem hw
  obtain ⟨hw1, hw2⟩ := hinv w hwin
  obtain ⟨st1, h1⟩ := FaderPairs.setNumPairsLoop_get n (1 / (n : ℚ)) p.pairs 0 st j w hw
  rw [hp, h1]
  refine ⟨_, rfl, juce.SmoothedValue.setTargetValue_target _ _,
    juce.SmoothedValue.setTargetValue_target _ _, ?_, ?_⟩
  · intro hge
    rw [if_neg (by omega)]
    show w.silence.silenced = true ∧ w.silence.masterGain.target = 0
    unfold FaderPair.silence
    simp only []
    split_ifs with hs
    · exact ⟨rfl, juce.SmoothedValue.setTargetValue_target _ _⟩
    · have hs1 : w.silenced = true := by simpa using hs
      exact ⟨hs1, hw2.1 hs1⟩
  · intro hlt2
    rw [if_pos (by omega)]
    show ((FaderPair.start st1 w).2.silenced = false
        ∧ (FaderPair.start st1 w).2.masterGain.target = 1)
      ∨ (FaderPair.start st1 w).2.waitingToRestart = true
    unfold FaderPair.start
    split_ifs with h2 h3
    · exact Or.inr rfl
    · exact Or.inl ⟨rfl, juce.SmoothedValue.setTargetValue_target _ _⟩
    · left
      have hs : w.silenced = false := by
        cases hws : w.silenced with
        | false => rfl
        | true => exact absurd ⟨h3, hws⟩ h2
      refine ⟨hs, ?_⟩
      rcases hw1 with h0 | h1
      · have := hw2.2 h0; rw [hs] at this; exact Bool.noConfusion this
      · exact h1

/-- Every voice of a new pool after `init` has gain target `0` or `1`, and `0` exactly
when it is silenced. -/
theorem FaderPairs.init_voices_target (pan0 : ℚ × ℚ) (st : Statics) (sr0 : ℚ) (a m : Nat)
    (g : ℚ) (np : Nat) (sr : ℚ) (cap : Nat) (lo hi : ℚ) :
    ∀ v ∈ (FaderPairs.init pan0 st (FaderPairs.new sr0 a m g) np sr cap lo hi).2.pairs,
      (v.masterGain.target = 0 ∨ v.masterGain.target = 1)
        ∧ (v.silenced = true ↔ v.masterGain.target = 0) := by
  intro v hv
  obtain ⟨j, hj⟩ := List.mem_iff_get?.mp hv
  have hlt : j < cap := by
    have h := List.get?_eq_some.mp hj
    obtain ⟨h1, _⟩ := h
    rwa [FaderPairs.init_pairs_length] at h1
  obtain ⟨st1, h1⟩ := FaderPairs.init_get pan0 st sr0 a m g np sr cap lo hi j hlt
  have e : v = (FaderPair.init st1 (FaderPair.new pan0) sr (0.5 / (np : ℚ))
      (decide (j ≥ np))).2 := Option.some.inj (hj.symm.trans h1)
  rw [e]
  have h := FaderPair.init_target st1 (FaderPair.new pan0) sr (0.5 / (np : ℚ))
    (decide (j ≥ np))
  simp only [FaderPair.fade] at h
  exact h

/-- An instance of `FaderPairs.setNumPairs_below_capacity`: a pool of three voices with one
active, `setNumPairs(2)`, the voice at index `1`. -/
theorem FaderPairs.setNumPairs_below_capacity_instance :
    ∃ v, (FaderPairs.setNumPairs (samplePool 3 1 3).1 (samplePool 3 1 3).2 2).2.pairs.get? 1
          = some v
      ∧ v.maxLevel.target = 1 / 2 ∧ v.avgLevel.target = 1 / 2 / 2
      ∧ ((v.silenced = false ∧ v.masterGain.target = 1) ∨ v.waitingToRestart = true) := by
  have hlen : (samplePool 3 1 3).2.pairs.length = 3 :=
    FaderPairs.init_pairs_length _ _ _ _ _ _ _ _ _ _ _
  obtain ⟨v, h1, h2, h3, _, h5⟩ := FaderPairs.setNumPairs_below_capacity (samplePool 3 1 3).1
    (samplePool 3 1 3).2 2 (by norm_num) (by show 2 ≤ 3; norm_num) (by rw [hlen]; norm_num)
    (FaderPairs.init_voices_target _ _ _ _ _ _ _ _ _ _ _) 1 (by rw [hlen]; norm_num)
  exact ⟨v, h1, by simpa using h2, by simpa using h3, h5 (by norm_num)⟩

/-- Claim C1. A pool of capacity `3` (with the member `maxNumPairs` holding `3`) is
initialised with one active voice and `setNumPairs(3)` is called. The loop over the
voices is guarded by `numPairs < pairs.size()` and does not run: every voice keeps the
level targets of `init` (`maxLevel` `1/2`, `avgLevel` `1/4`, not `1/3` and `1/6`), and
the voices `1` and `2` stay silenced with gain target `0` and no restart pending. -/
theorem C1_setNumPairs_at_capacity :
    (FaderPairs.setNumPairs (samplePool 3 1 3).1 (samplePool 3 1 3).2 3).2.pairs.length = 3
    ∧ ∀ j, j < 3 →
        ∃ v, (FaderPairs.setNumPairs (samplePool 3 1 3).1 (samplePool 3 1 3).2 3).2.pairs.get? j
              = some v
          ∧ v.maxLevel.target = 1 / 2 ∧ v.avgLevel.target = 1 / 4
          ∧ (1 ≤ j → v.silenced = true ∧ v.waitingToRestart = false
                ∧ v.masterGain.target = 0) := by
  have hlen : (samplePool 3 1 3).2.pairs.length = 3 := FaderPairs.init_pairs_length _ _ _ _ _ _ _ _ _ _ _
  have hmem : (samplePool 3 1 3).2.maxNumPairs = 3 := rfl
  have hp := FaderPairs.setNumPairs_pairs_of_ge (samplePool 3 1 3).1 (samplePool 3 1 3).2 3
    (by rw [hmem]) (by rw [hlen])
  rw [hp]
  refine ⟨hlen, ?_⟩
  intro j hj
  obtain ⟨st1, h⟩ := FaderPairs.init_get (1 / 2, 1 / 2) sampleStatics 0 0 3 0 1 48000 3 120 1200
    j hj
  refine ⟨_, h, ?_, ?_, ?_⟩
  · rw [(FaderPair.init_levels _ _ _ _ _).1]; norm_num
  · rw [(FaderPair.init_levels _ _ _ _ _).2]; norm_num
  · intro h1
    have hd : decide (j ≥ 1) = true := by simpa using h1
    have hf := FaderPair.init_fade st1 (FaderPair.new (1 / 2, 1 / 2)) 48000
      (0.5 / ((1 : Nat) : ℚ)) (decide (j ≥ 1))
    rw [hd] at hf ⊢
    refine ⟨congrArg FadeState.silenced hf, congrArg FadeState.waitingToRestart hf, ?_⟩
    have ht := congrArg (fun f => f.masterGain.target) hf
    simp only [FaderPair.fade] at ht
    rw [ht]
    exact juce.SmoothedValue.setTargetValue_target _ _

/-- Claim C2. `FaderPairs::init` does not write the member `maxNumPairs`, and
`setNumPairs` clamps against that member. With the member holding `0`, a pool of four
voices stores `numActivePairs = 0` on `setNumPairs(10)`, not `4`; with the member holding
`100`, it stores `10`, more than its four voices. -/
theorem C2_setNumPairs_clamp_ignores_capacity :
    ((samplePool 0 2 4).2.pairs.length = 4
      ∧ (FaderPairs.setNumPairs (samplePool 0 2 4).1 (samplePool 0 2 4).2 10).2.numActivePairs = 0
      ∧ (FaderPairs.setNumPairs (samplePool 0 2 4).1 (samplePool 0 2 4).2 10).2.pairs.length = 4)
    ∧ ((samplePool 100 2 4).2.pairs.length = 4
      ∧ (FaderPairs.setNumPairs (samplePool 100 2 4).1 (samplePool 100 2 4).2
            10).2.numActivePairs = 10
      ∧ (FaderPairs.setNumPairs (samplePool 100 2 4).1 (samplePool 100 2 4).2
            10).2.pairs.length = 4) := by
  have h0 : (samplePool 0 2 4).2.pairs.length = 4 := FaderPairs.init_pairs_length _ _ _ _ _ _ _ _ _ _ _
  have h1 : (samplePool 100 2 4).2.pairs.length = 4 :=
    FaderPairs.init_pairs_length _ _ _ _ _ _ _ _ _ _ _
  have m0 : (samplePool 0 2 4).2.maxNumPairs = 0 := rfl
  have m1 : (samplePool 100 2 4).2.maxNumPairs = 100 := rfl
  refine ⟨⟨h0, ?_, ?_⟩, ⟨h1, ?_, ?_⟩⟩
  · rw [FaderPairs.setNumPairs_numActivePairs, m0]; rfl
  · rw [FaderPairs.setNumPairs_length, h0]
  · rw [FaderPairs.setNumPairs_numActivePairs, m1]; rfl
  · rw [FaderPairs.setNumPairs_length, h1]

/-! ## The gain compensation at two and at no active voices -/

/-- Claim C3. A pool of four voices initialised with two active ones (so that
`numActivePairs = 2` when `init` calls `setGainOffset`): the gain offset stored is `1/7`,
not `0`, and the output gain target is `0.6 + 0.4/7 = 23/35`, not `0.6`. -/
theorem C3_setGainOffset_two :
    (samplePool 4 2 4).2.numActivePairs = 2
    ∧ (samplePool 4 2 4).2.gainOffset = 1 / 7
    ∧ (samplePool 4 2 4).2.gain.target = 23 / 35
    ∧ (samplePool 4 2 4).2.gain.target ≠ 0.6 := by
  have e : (samplePool 4 2 4).2.gain.target = 23 / 35 := by
    simp only [samplePool, FaderPairs.init, FaderPairs.setGainOffset,
      juce.SmoothedValue.setTargetValue_target]
    norm_num
  refine ⟨rfl, ?_, e, ?_⟩
  · simp only [samplePool, FaderPairs.init, FaderPairs.setGainOffset]
    norm_num
  · rw [e]; norm_num

/-- Claim C4. On the same pool `setNumPairs(0)` stores `numActivePairs = 0`; the
subtraction in `setGainOffset` then wraps on `size_t`, the gain offset is capped at `1`
and the output gain target is `1`, while the formula with the integer difference
`0 - 1 = -1` gives `0.6 + 0.4 * min 1 (-1/7) = 19/35`. -/
theorem C4_setGainOffset_zero :
    (FaderPairs.setNumPairs (samplePool 4 2 4).1 (samplePool 4 2 4).2 0).2.numActivePairs = 0
    ∧ (FaderPairs.setNumPairs (samplePool 4 2 4).1 (samplePool 4 2 4).2 0).2.gainOffset = 1
    ∧ (FaderPairs.setNumPairs (samplePool 4 2 4).1 (samplePool 4 2 4).2 0).2.gain.target = 1
    ∧ (0.6 + 0.4 * min 1 ((((0 : Int) - 1 : Int) : ℚ) / 7) : ℚ) = 19 / 35 := by
  refine ⟨?_, ?_, ?_, ?_⟩
  · rw [FaderPairs.setNumPairs_numActivePairs]; rfl
  · simp only [FaderPairs.setNumPairs, FaderPairs.setGainOffset]
    norm_num
  · simp only [FaderPairs.setNumPairs, FaderPairs.setGainOffset,
      juce.SmoothedValue.setTargetValue_target]
    norm_num
  · rw [min_eq_right (by norm_num)]; norm_num

/-! ## After `silence()` -/

/-- A silenced voice with gain target `0` and no restart pending stays so under every call
but `start()`. -/
theorem FadeState.call_silenced (c : VoiceCall) (hc : c ≠ VoiceCall.start) (f : FadeState)
    (hs : f.silenced = true) (hw : f.waitingToRestart = false)
    (ht : f.masterGain.target = 0) :
    (FadeState.call c f).silenced = true ∧ (FadeState.call c f).waitingToRestart = false
      ∧ (FadeState.call c f).masterGain.target = 0 := by
  cases c with
  | start => exact absurd rfl hc
  | silence =>
    simp [FadeState.call, FadeState.silence, hs, ht]
  | setMaxLevel level => exact ⟨hs, hw, ht⟩
  | process =>
    have hr : f.processRestart = f := by
      unfold FadeState.processRestart
      rw [if_neg]
      rintro ⟨_, h⟩
      rw [hw] at h
      exact Bool.noConfusion h
    simp only [FadeState.call, FadeState.process, hr, juce.SmoothedValue.getNextValue_target]
    exact ⟨hs, hw, ht⟩

theorem FadeState.calls_silenced (ds : List VoiceCall) (hds : ∀ c ∈ ds, c ≠ VoiceCall.start)
    (f : FadeState) (hs : f.silenced = true) (hw : f.waitingToRestart = false)
    (ht : f.masterGain.target = 0) :
    (FadeState.calls ds f).silenced = true ∧ (FadeState.calls ds f).waitingToRestart = false
      ∧ (FadeState.calls ds f).masterGain.target = 0 := by
  induction ds generalizing f with
  | nil => exact ⟨hs, hw, ht⟩
  | cons c ds ih =>
    obtain ⟨h1, h2, h3⟩ := FadeState.call_silenced c (hds c (List.mem_cons_self c ds)) f hs hw ht
    exact ih (fun d hd => hds d (List.mem_cons_of_mem c hd)) _ h1 h2 h3

/-- After `silence()` on a state in which the gain target is `0` exactly when the voice is
silenced: silenced, no restart pending, gain target `0`. -/
theorem FadeState.silence_facts (f : FadeState)
    (h : f.silenced = true ↔ f.masterGain.target = 0) :
    f.silence.silenced = true ∧ f.silence.waitingToRestart = false
      ∧ f.silence.masterGain.target = 0 := by
  cases hs : f.silenced with
  | false => simp [FadeState.silence, hs, juce.SmoothedValue.setTargetValue_target]
  | true => simp [FadeState.silence, hs, h.1 hs]

/-- Claim C11. Take any voice state reached from `init` (a restart may be pending) and
call `silence()`: the voice is silenced, no restart is pending and the gain target is `0`;
and every sequence of further calls without `start()` returns and leaves those three
facts in place. -/
theorem C11_silence_cancels_restart (wave : ℚ → ℚ) (st : Statics) (v : FaderPair)
    (sampleRate maxLevel : ℚ) (silenced : Bool) (cs : List VoiceCall)
    (s : Statics × FaderPair)
    (hreach : FaderPair.calls wave cs (FaderPair.init st v sampleRate maxLevel silenced) = some s)
    (ds : List VoiceCall) (hds : ∀ c ∈ ds, c ≠ VoiceCall.start) :
    (s.2.silence.silenced = true ∧ s.2.silence.waitingToRestart = false
      ∧ s.2.silence.masterGain.target = 0)
    ∧ ∃ t, FaderPair.calls wave ds (s.1, s.2.silence) = some t
        ∧ t.2.silenced = true ∧ t.2.waitingToRestart = false
        ∧ t.2.masterGain.target = 0 := by
  obtain ⟨s1, hs1, hf1, hl1⟩ := FaderPair.calls_fade wave cs
    (FaderPair.init st v sampleRate maxLevel silenced) (FaderPair.init_length _ _ _ _ _)
  have hss : s1 = s := Option.some.inj (hs1.symm.trans hreach)
  subst hss
  have hinv := FadeState.calls_target cs _
    (FaderPair.init_target st v sampleRate maxLevel silenced)
  rw [← hf1] at hinv
  have h0 := FadeState.silence_facts s1.2.fade hinv.2
  rw [← FaderPair.silence_fade] at h0
  have hlen : 2 ≤ (s1.1, s1.2.silence).2.oscs.length := by
    show 2 ≤ s1.2.silence.oscs.length
    rw [FaderPair.silence_oscs, hl1]
    exact FaderPair.init_length _ _ _ _ _
  obtain ⟨t, ht, htf, _⟩ := FaderPair.calls_fade wave ds (s1.1, s1.2.silence) hlen
  have hk := FadeState.calls_silenced ds hds _ h0.1 h0.2.1 h0.2.2
  rw [← htf] at hk
  exact ⟨h0, t, ht, hk⟩

theorem C11_silence_cancels_restart_witness :
    ∃ s t,
      FaderPair.calls triangleWave [VoiceCall.process, VoiceCall.silence, VoiceCall.start]
          (FaderPair.init sampleStatics (FaderPair.new (1 / 2, 1 / 2)) 20 1 false) = some s
      ∧ s.2.waitingToRestart = true
      ∧ FaderPair.calls triangleWave
          [VoiceCall.process, VoiceCall.process, VoiceCall.setMaxLevel (1 / 2),
           VoiceCall.process] (s.1, s.2.silence) = some t
      ∧ t.2.silenced = true ∧ t.2.waitingToRestart = false
      ∧ t.2.masterGain.target = 0 := by
  obtain ⟨s, hs, hsf, _⟩ := FaderPair.calls_fade triangleWave
    [VoiceCall.process, VoiceCall.silence, VoiceCall.start]
    (FaderPair.init sampleStatics (FaderPair.new (1 / 2, 1 / 2)) 20 1 false)
    (FaderPair.init_length _ _ _ _ _)
  have hw : s.2.fade.waitingToRestart = true := by
    rw [hsf, FaderPair.init_fade]
    norm_num [FaderPair.new, FadeState.calls, FadeState.call, FadeState.process,
      FadeState.processRestart, FadeState.start, FadeState.silence,
      juce.SmoothedValue.reset, juce.SmoothedValue.setCurrentAndTargetValue,
      juce.SmoothedValue.setTargetValue, juce.SmoothedValue.getNextValue,
      juce.SmoothedValue.advance, juce.SmoothedValue.isSmoothing,
      juce.SmoothedValue.getCurrentValue]
  obtain ⟨_, t, ht, h1, h2, h3⟩ := C11_silence_cancels_restart triangleWave sampleStatics
    (FaderPair.new (1 / 2, 1 / 2)) 20 1 false
    [VoiceCall.process, VoiceCall.silence, VoiceCall.start] s hs
    [VoiceCall.process, VoiceCall.process, VoiceCall.setMaxLevel (1 / 2), VoiceCall.process]
    (by
      intro c hc
      simp only [List.mem_cons, List.mem_singleton, List.not_mem_nil, or_false] at hc
      rcases hc with h | h | h | h <;> rw [h] <;> exact fun e => VoiceCall.noConfusion e)
  exact ⟨s, t, hs, hw, ht, h1, h2, h3⟩

/-! ## The output of `FaderPair::process` -/

/-- Claim C18. A new pool after `init(numActive, sampleRate, capacity, ...)` with
`0 < numActive ≤ capacity` holds exactly `capacity` voices; voice `i` is silenced exactly
when `i ≥ numActive`, with gain target `0` then and `1` otherwise; every voice has
`maxLevel` target `0.5 / numActive`; and `numActivePairs = numActive`. -/
theorem C18_pool_init (pan0 : ℚ × ℚ) (st : Statics) (sr0 : ℚ) (a m : Nat) (g : ℚ)
    (numActive : Nat) (sampleRate : ℚ) (capacity : Nat) (lo hi : ℚ)
    (_hpos : 0 < numActive) (_hle : numActive ≤ capacity) :
    (FaderPairs.init pan0 st (FaderPairs.new sr0 a m g) numActive sampleRate capacity
        lo hi).2.pairs.length = capacity
    ∧ (FaderPairs.init pan0 st (FaderPairs.new sr0 a m g) numActive sampleRate capacity
        lo hi).2.numActivePairs = numActive
    ∧ ∀ i, i < capacity →
        ∃ v, (FaderPairs.init pan0 st (FaderPairs.new sr0 a m g) numActive sampleRate capacity
                lo hi).2.pairs.get? i = some v
          ∧ (v.silenced = true ↔ numActive ≤ i)
          ∧ (numActive ≤ i → v.masterGain.target = 0)
          ∧ (i < numActive → v.masterGain.target = 1)
          ∧ v.maxLevel.target = 0.5 / (numActive : ℚ) := by
  refine ⟨FaderPairs.init_pairs_length _ _ _ _ _ _ _ _ _ _ _, rfl, ?_⟩
  intro i hlt
  obtain ⟨st1, h⟩ := FaderPairs.init_get pan0 st sr0 a m g numActive sampleRate capacity lo hi
    i hlt
  have hf := FaderPair.init_fade st1 (FaderPair.new pan0) sampleRate
    (0.5 / (numActive : ℚ)) (decide (i ≥ numActive))
  have hs := congrArg FadeState.silenced hf
  have ht := congrArg (fun f => f.masterGain.target) hf
  simp only [FaderPair.fade, juce.SmoothedValue.setTargetValue_target] at hs ht
  refine ⟨_, h, ?_, ?_, ?_, (FaderPair.init_levels _ _ _ _ _).1⟩
  · rw [hs]; simp
  · intro hge
    rw [ht, if_pos (by simpa using hge)]
  · intro hlt2
    rw [ht, if_neg (by simpa using hlt2)]

theorem C18_pool_init_witness :
    (samplePool 4 2 4).2.pairs.length = 4 ∧ (samplePool 4 2 4).2.numActivePairs = 2
    ∧ ∀ i, i < 4 →
        ∃ v, (samplePool 4 2 4).2.pairs.get? i = some v
          ∧ (v.silenced = true ↔ 2 ≤ i)
          ∧ (2 ≤ i → v.masterGain.target = 0)
          ∧ (i < 2 → v.masterGain.target = 1)
          ∧ v.maxLevel.target = 0.5 / ((2 : Nat) : ℚ) :=
  C18_pool_init (1 / 2, 1 / 2) sampleStatics 0 0 4 0 2 48000 4 120 1200 (by decide) (by decide)

/-! ## `FaderPair::processLevels` -/

/-- Claim C19. One `processLevels` step on a voice with its two oscillators `a`, `b`, for
the LFO value `l` of that step. If `l ≥ 1`: oscillator `b` gets a newly drawn frequency
and `pan[1]` a newly drawn value, `a` and `pan[0]` stay. If `l ≤ -1`: oscillator `a` and
`pan[0]` are drawn anew, `b` and `pan[1]` stay. If `-1 < l < 1`: the oscillators, the pan
values and the random source stay as they are. -/
theorem C19_processLevels_redraw (wave : ℚ → ℚ) (st : Statics) (v : FaderPair)
    (a b : SineOsc) (hosc : v.oscs = [a, b]) :
    (1 ≤ (v.lfo.process wave).1 →
        (FaderPair.processLevels wave st v).2.2.oscs
            = [a, b.setFrequency (st.random.draws st.random.pos
                  * (st.maxOscFreq - st.minOscFreq) + st.minOscFreq)]
        ∧ (FaderPair.processLevels wave st v).2.2.pan
            = (v.pan.1, 0.5 + (st.random.draws (st.random.pos + 1) - 0.5) * st.stereoWidth)
        ∧ (FaderPair.processLevels wave st v).2.1.random.pos = st.random.pos + 2)
    ∧ ((v.lfo.process wave).1 ≤ -1 →
        (FaderPair.processLevels wave st v).2.2.oscs
            = [a.setFrequency (st.random.draws st.random.pos
                  * (st.maxOscFreq - st.minOscFreq) + st.minOscFreq), b]
        ∧ (FaderPair.processLevels wave st v).2.2.pan
            = (0.5 + (st.random.draws (st.random.pos + 1) - 0.5) * st.stereoWidth, v.pan.2)
        ∧ (FaderPair.processLevels wave st v).2.1.random.pos = st.random.pos + 2)
    ∧ (-1 < (v.lfo.process wave).1 → (v.lfo.process wave).1 < 1 →
        (FaderPair.processLevels wave st v).2.2.oscs = [a, b]
        ∧ (FaderPair.processLevels wave st v).2.2.pan = v.pan
        ∧ (FaderPair.processLevels wave st v).2.1 = st) := by
  refine ⟨?_, ?_, ?_⟩
  · intro h
    unfold FaderPair.processLevels
    simp only []
    rw [if_pos (by exact h)]
    simp [FaderPair.resetOsc, FaderPair.resetPan, FaderPair.setPan, hosc,
      FaderPair.getRandomOscFrequency, juce.Random.peek, juce.Random.advance,
      SineOsc.setFrequency, List.modify]
  · intro h
    have h1 : ¬ (1 ≤ (v.lfo.process wave).1) := by linarith
    unfold FaderPair.processLevels
    simp only []
    rw [if_neg (by exact h1), if_pos (by exact h)]
    simp [FaderPair.resetOsc, FaderPair.resetPan, FaderPair.setPan, hosc,
      FaderPair.getRandomOscFrequency, juce.Random.peek, juce.Random.advance,
      SineOsc.setFrequency, List.modify]
  · intro h1 h2
    unfold FaderPair.processLevels
    simp only []
    rw [if_neg (by exact not_le.mpr h2), if_neg (by exact not_le.mpr h1)]
    exact ⟨hosc, rfl, rfl⟩

theorem C19_processLevels_redraw_witness :
    (FaderPair.processLevels triangleWave sampleStatics peakVoice).2.2.oscs
        = [{}, ({} : SineOsc).setFrequency (sampleStatics.random.draws sampleStatics.random.pos
              * (sampleStatics.maxOscFreq - sampleStatics.minOscFreq)
              + sampleStatics.minOscFreq)]
    ∧ (FaderPair.processLevels triangleWave sampleStatics peakVoice).2.2.pan
        = (peakVoice.pan.1,
           0.5 + (sampleStatics.random.draws (sampleStatics.random.pos + 1) - 0.5)
                  * sampleStatics.stereoWidth)
    ∧ (FaderPair.processLevels triangleWave sampleStatics peakVoice).2.1.random.pos
        = sampleStatics.random.pos + 2 := by
  have hf : Int.fract ((0 : ℚ) + 2 / 4) = 1 / 2 := by
    rw [Int.fract_eq_iff]
    exact ⟨by norm_num, by norm_num, 0, by norm_num⟩
  have hl : 1 ≤ (peakVoice.lfo.process triangleWave).1 := by
    simp only [peakVoice, SineOsc.process, SineOsc.advance, triangleWave, hf]
    norm_num
  exact (C19_processLevels_redraw triangleWave sampleStatics peakVoice {} {} rfl).1 hl

/-! ## The pan values after `FaderPair::init` -/

/-- On a new voice `init` calls `resetPan` while the voice has no oscillators yet, so
both calls return at their guard: `pan` keeps what it held, and the three values that
`init` draws go to the LFO base and to the two oscillator frequencies. -/
theorem FaderPair.init_new_pan (st : Statics) (pan0 : ℚ × ℚ) (sr lvl : ℚ) (sil : Bool) :
    (FaderPair.init st (FaderPair.new pan0) sr lvl sil).2.pan = pan0
      ∧ (FaderPair.init st (FaderPair.new pan0) sr lvl sil).1.random.pos = st.random.pos + 3
      ∧ (FaderPair.init st (FaderPair.new pan0) sr lvl sil).2.lfoBaseFreq
          = st.random.draws st.random.pos := by
  simp [FaderPair.init, FaderPair.new, FaderPair.resetPan, FaderPair.initOscs,
    FaderPair.initOscsLoop, FaderPair.getRandomOscFrequency, juce.Random.advance,
    juce.Random.peek]

/-- Claim C15. A new voice whose `pan` holds `(1/2, 1/2)` is initialised with stereo
width `1` and a random source that returns `1/3`, `1/4`, `1/5`, ...: after `init` the pan
values are still `(1/2, 1/2)` (as they are for every initial content of `pan`), `init`
has drawn three values (for the LFO base and the two oscillator frequencies), and no value
`r` of the random source gives `0.5 + (r - 0.5) * stereoWidth = 1/2`. -/
theorem C15_init_leaves_pan :
    (∀ pan0, (FaderPair.init varyingStatics (FaderPair.new pan0) 48000 1 false).2.pan = pan0)
    ∧ (FaderPair.init varyingStatics (FaderPair.new (1 / 2, 1 / 2)) 48000 1 false).2.pan
        = (1 / 2, 1 / 2)
    ∧ (FaderPair.init varyingStatics (FaderPair.new (1 / 2, 1 / 2)) 48000 1
        false).1.random.pos = 3
    ∧ ∀ n, 0.5 + (varyingStatics.random.draws n - 0.5) * varyingStatics.stereoWidth
          ≠ (1 / 2 : ℚ) := by
  refine ⟨fun pan0 => (FaderPair.init_new_pan _ _ _ _ _).1,
    (FaderPair.init_new_pan _ _ _ _ _).1, ?_, ?_⟩
  · rw [(FaderPair.init_new_pan _ _ _ _ _).2.1]; rfl
  · intro n
    simp only [varyingStatics]
    have hpos : (0 : ℚ) < (n : ℚ) + 3 := by positivity
    have hlt : 1 / ((n : ℚ) + 3) < 1 / 2 := by
      apply one_div_lt_one_div_of_lt (by norm_num)
      have : (0 : ℚ) ≤ n := Nat.cast_nonneg n
      linarith
    intro h
    have : 1 / ((n : ℚ) + 3) = 1 / 2 := by linarith
    linarith

/-! ## The frequency ranges -/

theorem constrainFloat_mono (a b lo hi : ℚ) (hlohi : lo ≤ hi) (hab : a ≤ b) :
    constrainFloat a lo hi ≤ constrainFloat b lo hi := by
  unfold constrainFloat
  split_ifs <;> linarith

/-- With ordered arguments `setOscFreqRange` installs an ordered range. -/
theorem FaderPairs.setOscFreqRange_ordered (st : Statics) (minHz maxHz : ℚ)
    (h : minHz ≤ maxHz) :
    (FaderPairs.setOscFreqRange st minHz maxHz).minOscFreq
      ≤ (FaderPairs.setOscFreqRange st minHz maxHz).maxOscFreq :=
  constrainFloat_mono minHz maxHz 80 2000 (by norm_num) h

/-- The counterexample to claim C16: after `setOscFreqRange(1000, 200)` the shared range
is `minOscFreq = 1000`, `maxOscFreq = 200`, and with the draw `1/2` the frequency returned
by `getRandomOscFrequency` is `600`, outside `[minOscFreq, maxOscFreq]`. -/
theorem C16_unordered_range_counterexample :
    (FaderPairs.setOscFreqRange sampleStatics 1000 200).minOscFreq = 1000
    ∧ (FaderPairs.setOscFreqRange sampleStatics 1000 200).maxOscFreq = 200
    ∧ (FaderPairs.setOscFreqRange sampleStatics 1000 200).random.peek = 1 / 2
    ∧ (FaderPair.getRandomOscFrequency (FaderPairs.setOscFreqRange sampleStatics 1000 200)).1
        = 600
    ∧ ¬ ((FaderPairs.setOscFreqRange sampleStatics 1000 200).minOscFreq
          ≤ (FaderPair.getRandomOscFrequency
              (FaderPairs.setOscFreqRange sampleStatics 1000 200)).1
        ∧ (FaderPair.getRandomOscFrequency
              (FaderPairs.setOscFreqRange sampleStatics 1000 200)).1
          ≤ (FaderPairs.setOscFreqRange sampleStatics 1000 200).maxOscFreq) := by
  have h1 : (FaderPairs.setOscFreqRange sampleStatics 1000 200).minOscFreq = 1000 := by
    norm_num [FaderPairs.setOscFreqRange, FaderPair.initFreqs, constrainFloat]
  have h2 : (FaderPairs.setOscFreqRange sampleStatics 1000 200).maxOscFreq = 200 := by
    norm_num [FaderPairs.setOscFreqRange, FaderPair.initFreqs, constrainFloat]
  have h3 : (FaderPairs.setOscFreqRange sampleStatics 1000 200).random.peek = 1 / 2 := rfl
  have h4 : (FaderPair.getRandomOscFrequency
      (FaderPairs.setOscFreqRange sampleStatics 1000 200)).1 = 600 := by
    simp only [FaderPair.getRandomOscFrequency, h1, h2, h3]
    norm_num
  refine ⟨h1, h2, h3, h4, ?_⟩
  rw [h4, h1, h2]
  norm_num

/-- Claim C16, amended. For every draw in `[0,1)` and every shared oscillator range with
`minOscFreq ≤ maxOscFreq`, the frequency returned by `getRandomOscFrequency` lies within
`[minOscFreq, maxOscFreq]`. -/
theorem C16_osc_frequency_in_ordered_range (st : Statics)
    (hr0 : 0 ≤ st.random.peek) (hr1 : st.random.peek < 1)
    (hrange : st.minOscFreq ≤ st.maxOscFreq) :
    st.minOscFreq ≤ (FaderPair.getRandomOscFrequency st).1
      ∧ (FaderPair.getRandomOscFrequency st).1 ≤ st.maxOscFreq := by
  simp only [FaderPair.getRandomOscFrequency]
  have hd : 0 ≤ st.maxOscFreq - st.minOscFreq := by linarith
  constructor
  · nlinarith [mul_nonneg hr0 hd]
  · nlinarith [mul_nonneg (by linarith : (0 : ℚ) ≤ 1 - st.random.peek) hd]

theorem C16_osc_frequency_in_ordered_range_witness :
    (FaderPairs.setOscFreqRange sampleStatics 200 1000).minOscFreq
        ≤ (FaderPair.getRandomOscFrequency (FaderPairs.setOscFreqRange sampleStatics 200 1000)).1
    ∧ (FaderPair.getRandomOscFrequency (FaderPairs.setOscFreqRange sampleStatics 200 1000)).1
        ≤ (FaderPairs.setOscFreqRange sampleStatics 200 1000).maxOscFreq :=
  C16_osc_frequency_in_ordered_range (FaderPairs.setOscFreqRange sampleStatics 200 1000)
    (by show (0 : ℚ) ≤ 1 / 2; norm_num) (by show (1 / 2 : ℚ) < 1; norm_num)
    (FaderPairs.setOscFreqRange_ordered sampleStatics 200 1000 (by norm_num))

/-- The counterexample to claim C17: with the default LFO range `[0.01, 0.1]` and the
shared LFO rate set to `1`, `getLfoFreqFromScale(0.9)` on a new voice is `0.991`, above
`maxLfoFreq`. -/
theorem C17_lfo_rate_counterexample :
    (FaderPair.setLfoRate sampleStatics 1).lfoRate = 1
    ∧ (FaderPair.setLfoRate sampleStatics 1).minLfoFreq = 0.01
    ∧ (FaderPair.setLfoRate sampleStatics 1).maxLfoFreq = 0.1
    ∧ FaderPair.getLfoFreqFromScale (FaderPair.setLfoRate sampleStatics 1)
        (FaderPair.new (1 / 2, 1 / 2)) 0.9 = 0.991
    ∧ ¬ (FaderPair.getLfoFreqFromScale (FaderPair.setLfoRate sampleStatics 1)
          (FaderPair.new (1 / 2, 1 / 2)) 0.9
        ≤ (FaderPair.setLfoRate sampleStatics 1).maxLfoFreq) := by
  have h1 : (FaderPair.setLfoRate sampleStatics 1).lfoRate = 1 := by
    norm_num [FaderPair.setLfoRate, constrainFloat]
  have h4 : FaderPair.getLfoFreqFromScale (FaderPair.setLfoRate sampleStatics 1)
      (FaderPair.new (1 / 2, 1 / 2)) 0.9 = 0.991 := by
    simp only [FaderPair.getLfoFreqFromScale, h1]
    norm_num [FaderPair.setLfoRate, sampleStatics, FaderPair.new, constrainFloat]
  refine ⟨h1, rfl, rfl, h4, ?_⟩
  rw [h4]
  norm_num [FaderPair.setLfoRate, sampleStatics]

theorem constrainFloat_unit (x : ℚ) :
    0 ≤ constrainFloat x 0 1 ∧ constrainFloat x 0 1 ≤ 1 := by
  unfold constrainFloat
  split_ifs <;> constructor <;> linarith

/-- Claim C17, amended. For every scale in `[0,1)`, every shared LFO rate in `[0,1]` and
every shared LFO range with `minLfoFreq ≤ maxLfoFreq`, the frequency computed by
`getLfoFreqFromScale` on a voice with `lfoSpread = 1` (the value of the member
initialiser), which `updateLfoFreq` installs for the voice's `lfoBaseFreq`, lies within
`[minLfoFreq, maxLfoFreq + lfoRate]`; it lies within `[minLfoFreq, maxLfoFreq]` when the
rate is `0`. -/
theorem C17_lfo_frequency_bounds (st : Statics) (v : FaderPair) (scale : ℚ)
    (_hs0 : 0 ≤ scale) (_hs1 : scale < 1)
    (hr0 : 0 ≤ st.lfoRate) (_hr1 : st.lfoRate ≤ 1) (hspread : v.lfoSpread = 1)
    (hrange : st.minLfoFreq ≤ st.maxLfoFreq) :
    st.minLfoFreq ≤ FaderPair.getLfoFreqFromScale st v scale
      ∧ FaderPair.getLfoFreqFromScale st v scale ≤ st.maxLfoFreq + st.lfoRate
      ∧ (st.lfoRate = 0 → FaderPair.getLfoFreqFromScale st v scale ≤ st.maxLfoFreq)
      ∧ (FaderPair.updateLfoFreq st v).lfo.frequency
          = FaderPair.getLfoFreqFromScale st v v.lfoBaseFreq := by
  obtain ⟨hc0, hc1⟩ := constrainFloat_unit scale
  have hd : 0 ≤ st.maxLfoFreq + st.lfoRate - st.minLfoFreq := by linarith
  have hlo : st.minLfoFreq ≤ FaderPair.getLfoFreqFromScale st v scale := by
    simp only [FaderPair.getLfoFreqFromScale, hspread, mul_one]
    nlinarith [mul_nonneg hd hc0]
  have hhi : FaderPair.getLfoFreqFromScale st v scale ≤ st.maxLfoFreq + st.lfoRate := by
    simp only [FaderPair.getLfoFreqFromScale, hspread, mul_one]
    nlinarith [mul_nonneg hd (by linarith : (0 : ℚ) ≤ 1 - constrainFloat scale 0 1)]
  refine ⟨hlo, hhi, ?_, rfl⟩
  intro h0
  rw [h0, add_zero] at hhi
  exact hhi

theorem C17_lfo_frequency_bounds_witness :
    sampleStatics.minLfoFreq
        ≤ FaderPair.getLfoFreqFromScale sampleStatics (FaderPair.new (1 / 2, 1 / 2)) (9 / 10)
    ∧ FaderPair.getLfoFreqFromScale sampleStatics (FaderPair.new (1 / 2, 1 / 2)) (9 / 10)
        ≤ sampleStatics.maxLfoFreq := by
  have h := C17_lfo_frequency_bounds sampleStatics (FaderPair.new (1 / 2, 1 / 2)) (9 / 10)
    (by norm_num) (by norm_num) (by show (0 : ℚ) ≤ 0; norm_num)
    (by show (0 : ℚ) ≤ 1; norm_num) rfl
    (by show (0.01 : ℚ) ≤ 0.1; norm_num)
  exact ⟨h.1, h.2.2.1 rfl⟩

/-! ## The ramp stays between its value and its target -/

theorem juce.SmoothedValue.setCurrentAndTargetValue_wellFormed (s : juce.SmoothedValue) (v : ℚ) :
    (s.setCurrentAndTargetValue v).WellFormed :=
  ⟨fun _ => rfl, fun h => absurd h (lt_irrefl (0 : Int))⟩

theorem juce.SmoothedValue.setTargetValue_wellFormed (s : juce.SmoothedValue) (v : ℚ) (h : s.WellFormed) :
    (s.setTargetValue v).WellFormed := by
  unfold juce.SmoothedValue.setTargetValue
  split_ifs with h1 h2
  · exact h
  · exact juce.SmoothedValue.setCurrentAndTargetValue_wellFormed _ _
  · refine ⟨fun hc => absurd hc h2, fun _ => ?_⟩
    have hne : (s.stepsToTarget : ℚ) ≠ 0 := by
      have : s.stepsToTarget ≠ 0 := by omega
      exact_mod_cast this
    show v = s.currentValue + (s.stepsToTarget : ℚ) * ((v - s.currentValue) / s.stepsToTarget)
    field_simp

/-- A new target leaves the value where it is, or (a ramp of no length) moves it onto the
target. -/
theorem juce.SmoothedValue.setTargetValue_currentValue (s : juce.SmoothedValue) (v : ℚ) :
    (s.setTargetValue v).currentValue = s.currentValue
      ∨ (s.setTargetValue v).currentValue = (s.setTargetValue v).target := by
  unfold juce.SmoothedValue.setTargetValue
  split_ifs
  · exact Or.inl rfl
  · exact Or.inr rfl
  · exact Or.inl rfl

theorem juce.SmoothedValue.advance_wellFormed (s : juce.SmoothedValue) (h : s.WellFormed) : s.advance.WellFormed := by
  unfold juce.SmoothedValue.advance juce.SmoothedValue.isSmoothing
  split_ifs with h1 h2
  · refine ⟨fun hc => absurd hc (not_le.mpr h2), fun _ => ?_⟩
    have := h.2 (by simpa using h1)
    show s.target = s.currentValue + s.step + ((s.countdown - 1 : Int) : ℚ) * s.step
    rw [this]; push_cast; ring
  · exact ⟨fun _ => rfl, fun hc => absurd hc h2⟩
  · exact h

/-- One sample of a ramp moves the value no further than the target: the new value lies
between the old value and the target. -/
theorem juce.SmoothedValue.advance_between (s : juce.SmoothedValue) (h : s.WellFormed) :
    min s.currentValue s.target ≤ s.advance.currentValue
      ∧ s.advance.currentValue ≤ max s.currentValue s.target := by
  unfold juce.SmoothedValue.advance juce.SmoothedValue.isSmoothing
  split_ifs with h1 h2
  · have ht := h.2 (by simpa using h1)
    have hc : (2 : ℚ) ≤ (s.countdown : ℚ) := by
      have : (2 : Int) ≤ s.countdown := by omega
      exact_mod_cast this
    show min s.currentValue s.target ≤ s.currentValue + s.step
      ∧ s.currentValue + s.step ≤ max s.currentValue s.target
    rcases le_total 0 s.step with hs | hs
    · have : s.step ≤ (s.countdown : ℚ) * s.step := by nlinarith
      exact ⟨le_trans (min_le_left _ _) (by linarith),
        le_trans (by linarith) (le_max_right _ _)⟩
    · have : (s.countdown : ℚ) * s.step ≤ s.step := by nlinarith
      exact ⟨le_trans (min_le_right _ _) (by linarith),
        le_trans (by linarith) (le_max_left _ _)⟩
  · exact ⟨min_le_right _ _, le_max_right _ _⟩
  · exact ⟨min_le_left _ _, le_max_left _ _⟩

/-- A value between `x` and a target `t` is no further from `t` than `x` is. -/
theorem abs_sub_le_of_between (x y t : ℚ) (h1 : min x t ≤ y) (h2 : y ≤ max x t) :
    |y - t| ≤ |x - t| := by
  rcases le_total x t with h | h
  · rw [min_eq_left h] at h1
    rw [max_eq_right h] at h2
    rw [abs_of_nonpos (by linarith), abs_of_nonpos (by linarith)]
    linarith
  · rw [min_eq_right h] at h1
    rw [max_eq_left h] at h2
    rw [abs_of_nonneg (by linarith), abs_of_nonneg (by linarith)]
    linarith

/-! ## The gain of a voice -/

/-- Every call keeps: the gain ramp is well-formed, its value lies in `[0,1]` and its
target is `0` or `1`. -/
theorem FadeState.call_gain (c : VoiceCall) (f : FadeState)
    (h : f.masterGain.WellFormed ∧ 0 ≤ f.masterGain.currentValue
      ∧ f.masterGain.currentValue ≤ 1
      ∧ (f.masterGain.target = 0 ∨ f.masterGain.target = 1)) :
    (FadeState.call c f).masterGain.WellFormed
      ∧ 0 ≤ (FadeState.call c f).masterGain.currentValue
      ∧ (FadeState.call c f).masterGain.currentValue ≤ 1
      ∧ ((FadeState.call c f).masterGain.target = 0
          ∨ (FadeState.call c f).masterGain.target = 1) := by
  -- a new target `0` or `1`
  have hset : ∀ (m : juce.SmoothedValue) (t : ℚ), (t = 0 ∨ t = 1) →
      (m.WellFormed ∧ 0 ≤ m.currentValue ∧ m.currentValue ≤ 1
        ∧ (m.target = 0 ∨ m.target = 1)) →
      ((m.setTargetValue t).WellFormed ∧ 0 ≤ (m.setTargetValue t).currentValue
        ∧ (m.setTargetValue t).currentValue ≤ 1
        ∧ ((m.setTargetValue t).target = 0 ∨ (m.setTargetValue t).target = 1)) := by
    intro m t ht hm
    have htt := juce.SmoothedValue.setTargetValue_target m t
    refine ⟨juce.SmoothedValue.setTargetValue_wellFormed m t hm.1, ?_, ?_, by rw [htt]; exact ht⟩
    · rcases juce.SmoothedValue.setTargetValue_currentValue m t with e | e
      · rw [e]; exact hm.2.1
      · rw [e, htt]; rcases ht with h0 | h1
        · rw [h0]
        · rw [h1]; norm_num
    · rcases juce.SmoothedValue.setTargetValue_currentValue m t with e | e
      · rw [e]; exact hm.2.2.1
      · rw [e, htt]; rcases ht with h0 | h1
        · rw [h0]; norm_num
        · rw [h1]
  -- one sample of the ramp
  have hadv : ∀ (m : juce.SmoothedValue),
      (m.WellFormed ∧ 0 ≤ m.currentValue ∧ m.currentValue ≤ 1
        ∧ (m.target = 0 ∨ m.target = 1)) →
      (m.getNextValue.2.WellFormed ∧ 0 ≤ m.getNextValue.2.currentValue
        ∧ m.getNextValue.2.currentValue ≤ 1
        ∧ (m.getNextValue.2.target = 0 ∨ m.getNextValue.2.target = 1)) := by
    intro m hm
    rw [juce.SmoothedValue.getNextValue_snd]
    obtain ⟨b1, b2⟩ := juce.SmoothedValue.advance_between m hm.1
    have ht0 : 0 ≤ m.target := by rcases hm.2.2.2 with e | e <;> simp [e]
    have ht1 : m.target ≤ 1 := by rcases hm.2.2.2 with e | e <;> simp [e]
    refine ⟨juce.SmoothedValue.advance_wellFormed m hm.1, ?_, ?_, ?_⟩
    · exact le_trans (le_min hm.2.1 ht0) b1
    · exact le_trans b2 (max_le hm.2.2.1 ht1)
    · rw [juce.SmoothedValue.advance_target]; exact hm.2.2.2
  have hstart : ∀ g : FadeState,
      (g.masterGain.WellFormed ∧ 0 ≤ g.masterGain.currentValue
        ∧ g.masterGain.currentValue ≤ 1
        ∧ (g.masterGain.target = 0 ∨ g.masterGain.target = 1)) →
      (g.start.masterGain.WellFormed ∧ 0 ≤ g.start.masterGain.currentValue
        ∧ g.start.masterGain.currentValue ≤ 1
        ∧ (g.start.masterGain.target = 0 ∨ g.start.masterGain.target = 1)) := by
    intro g hg
    unfold FadeState.start
    split_ifs
    · exact hg
    · exact hset g.masterGain 1 (Or.inr rfl) hg
    · exact hg
  cases c with
  | start => exact hstart f h
  | silence =>
    simp only [FadeState.call, FadeState.silence]
    split_ifs
    · exact hset f.masterGain 0 (Or.inl rfl) h
    · exact h
  | setMaxLevel level => exact h
  | process =>
    simp only [FadeState.call, FadeState.process]
    apply hadv
    unfold FadeState.processRestart
    split_ifs
    · exact hstart _ h
    · exact h

theorem FadeState.calls_gain (cs : List VoiceCall) (f : FadeState)
    (h : f.masterGain.WellFormed ∧ 0 ≤ f.masterGain.currentValue
      ∧ f.masterGain.currentValue ≤ 1
      ∧ (f.masterGain.target = 0 ∨ f.masterGain.target = 1)) :
    (FadeState.calls cs f).masterGain.WellFormed
      ∧ 0 ≤ (FadeState.calls cs f).masterGain.currentValue
      ∧ (FadeState.calls cs f).masterGain.currentValue ≤ 1
      ∧ ((FadeState.calls cs f).masterGain.target = 0
          ∨ (FadeState.calls cs f).masterGain.target = 1) := by
  induction cs generalizing f with
  | nil => exact h
  | cons c cs ih => exact ih _ (FadeState.call_gain c f h)

/-- Right after `init`, from any voice: the gain ramp is well-formed, its value lies in
`[0,1]` and its target is `0` or `1`. -/
theorem FaderPair.init_gain (st : Statics) (v : FaderPair) (sr lvl : ℚ) (sil : Bool) :
    (FaderPair.init st v sr lvl sil).2.fade.masterGain.WellFormed
      ∧ 0 ≤ (FaderPair.init st v sr lvl sil).2.fade.masterGain.currentValue
      ∧ (FaderPair.init st v sr lvl sil).2.fade.masterGain.currentValue ≤ 1
      ∧ ((FaderPair.init st v sr lvl sil).2.fade.masterGain.target = 0
          ∨ (FaderPair.init st v sr lvl sil).2.fade.masterGain.target = 1) := by
  rw [FaderPair.init_fade]
  simp only []
  have hw := juce.SmoothedValue.setTargetValue_wellFormed
    ((v.masterGain.reset sr v.rampTime).setCurrentAndTargetValue 0) (if sil then 0 else 1)
    (juce.SmoothedValue.setCurrentAndTargetValue_wellFormed _ _)
  have ht := juce.SmoothedValue.setTargetValue_target
    ((v.masterGain.reset sr v.rampTime).setCurrentAndTargetValue 0) (if sil then 0 else 1)
  have htv : ((if sil then 0 else 1 : ℚ) = 0 ∨ (if sil then 0 else 1 : ℚ) = 1) := by
    cases sil <;> simp
  refine ⟨hw, ?_, ?_, by rw [ht]; exact htv⟩
  · rcases juce.SmoothedValue.setTargetValue_currentValue
      ((v.masterGain.reset sr v.rampTime).setCurrentAndTargetValue 0)
      (if sil then 0 else 1) with e | e
    · rw [e]; exact le_refl _
    · rw [e, ht]; rcases htv with h0 | h1
      · rw [h0]
      · rw [h1]; norm_num
  · rcases juce.SmoothedValue.setTargetValue_currentValue
      ((v.masterGain.reset sr v.rampTime).setCurrentAndTargetValue 0)
      (if sil then 0 else 1) with e | e
    · rw [e]; exact zero_le_one
    · rw [e, ht]; rcases htv with h0 | h1
      · rw [h0]; norm_num
      · rw [h1]

/-- The deferred restart keeps the gain ramp well-formed and leaves the gain value where
it is, or (a ramp of no length) moves it onto the new target. -/
theorem FadeState.processRestart_gain (f : FadeState) (h : f.masterGain.WellFormed) :
    f.processRestart.masterGain.WellFormed
      ∧ (f.processRestart.masterGain.currentValue = f.masterGain.currentValue
          ∨ f.processRestart.masterGain.currentValue = f.processRestart.masterGain.target) := by
  unfold FadeState.processRestart
  split_ifs
  · unfold FadeState.start
    split_ifs
    · exact ⟨h, Or.inl rfl⟩
    · exact ⟨juce.SmoothedValue.setTargetValue_wellFormed _ _ h,
        juce.SmoothedValue.setTargetValue_currentValue _ _⟩
    · exact ⟨h, Or.inl rfl⟩
  · exact ⟨h, Or.inl rfl⟩

/-- One `process()` call moves the gain to a value between the value it had and the
target of the ramp. -/
theorem FadeState.process_between (f : FadeState) (h : f.masterGain.WellFormed) :
    min f.masterGain.currentValue f.process.masterGain.target
        ≤ f.process.masterGain.currentValue
      ∧ f.process.masterGain.currentValue
        ≤ max f.masterGain.currentValue f.process.masterGain.target := by
  obtain ⟨hw, hc⟩ := FadeState.processRestart_gain f h
  obtain ⟨b1, b2⟩ := juce.SmoothedValue.advance_between f.processRestart.masterGain hw
  simp only [FadeState.process, juce.SmoothedValue.getNextValue_snd,
    juce.SmoothedValue.advance_target]
  rcases hc with e | e
  · rw [e] at b1 b2; exact ⟨b1, b2⟩
  · rw [e, min_self] at b1
    rw [e, max_self] at b2
    exact ⟨le_trans (min_le_right _ _) b1, le_trans b2 (le_max_right _ _)⟩

/-- Claim C12. With the ramp primitive modelled as the linear ramp of the spec: every
sequence of calls on a voice after `init` returns, in the state it reaches the gain value
lies in `[0,1]`, and a `process()` call from there returns and leaves the gain between the
value it had and the target of the ramp, so no further from that target than it was. The
target of the ramp is the one the voice had before the call, unless the call begins with
a restart pending at gain `0` (the deferred restart then sets the target first). -/
theorem C12_gain_within_unit_interval (wave : ℚ → ℚ) (st : Statics) (v : FaderPair)
    (sampleRate maxLevel : ℚ) (silenced : Bool) (cs : List VoiceCall) :
    ∃ s, FaderPair.calls wave cs (FaderPair.init st v sampleRate maxLevel silenced) = some s
      ∧ 0 ≤ s.2.masterGain.getCurrentValue ∧ s.2.masterGain.getCurrentValue ≤ 1
      ∧ ∃ u, FaderPair.call wave VoiceCall.process s = some u
          ∧ min s.2.masterGain.getCurrentValue u.2.masterGain.getTargetValue
              ≤ u.2.masterGain.getCurrentValue
          ∧ u.2.masterGain.getCurrentValue
              ≤ max s.2.masterGain.getCurrentValue u.2.masterGain.getTargetValue
          ∧ |u.2.masterGain.getCurrentValue - u.2.masterGain.getTargetValue|
              ≤ |s.2.masterGain.getCurrentValue - u.2.masterGain.getTargetValue|
          ∧ (s.2.waitingToRestart = false ∨ s.2.masterGain.getCurrentValue ≠ 0 →
              u.2.masterGain.getTargetValue = s.2.masterGain.getTargetValue) := by
  obtain ⟨s, hs, hf, hl⟩ := FaderPair.calls_fade wave cs
    (FaderPair.init st v sampleRate maxLevel silenced) (FaderPair.init_length _ _ _ _ _)
  have hg := FadeState.calls_gain cs _ (FaderPair.init_gain st v sampleRate maxLevel silenced)
  rw [← hf] at hg
  obtain ⟨u, hu, huf, _⟩ := FaderPair.call_fade wave VoiceCall.process s
    (by rw [hl]; exact FaderPair.init_length _ _ _ _ _)
  have hb := FadeState.process_between s.2.fade hg.1
  have e : u.2.fade = s.2.fade.process := huf
  rw [← e] at hb
  refine ⟨s, hs, hg.2.1, hg.2.2.1, u, hu, hb.1, hb.2,
    abs_sub_le_of_between _ _ _ hb.1 hb.2, ?_⟩
  intro hnr
  have hp := FadeState.process_of_no_restart s.2.fade hnr
  have ht : u.2.fade.masterGain.target = s.2.fade.masterGain.target := by
    rw [e, hp]
    exact juce.SmoothedValue.advance_target _
  exact ht

/-! ## The level ramp of a voice -/

